import Mathlib

/-!
ImageUploadSite: image pipeline and upload state machine

A shallow embedding of `src/components/ImageUploadSite.js`.

JavaScript numbers are IEEE-754 binary64 values.  The arithmetic the component
performs on them (`2048 / width`, `width * ratio`, `quality / 100`,
`base64Length * 0.75`) is modelled exactly: a number is the dyadic value
`man * 2 ^ exp`, and every operation rounds its exact result to the nearest
binary64 value, ties to even.  Only non-negative finite values in the normal
range occur (pixel dimensions and string lengths are integers far below
`2 ^ 53`), so signs, subnormals, infinities and NaN are left out; division by
zero is outside the model and the statements about `resizeImage` assume
positive dimensions.
-/

set_option maxRecDepth 100000

namespace ImageUploadSite

/-! ## Binary64 arithmetic -/

/-- A non-negative finite binary64 number with value `man * 2 ^ exp`.  Results of
the operations below are normalised: `man = 0 ∧ exp = 0`, or
`2 ^ 52 ≤ man < 2 ^ 53`. -/
structure F64 where
  man : Nat
  exp : Int
  deriving DecidableEq, Repr

namespace F64

/-- The rational value of a binary64 number. -/
def toRat (x : F64) : ℚ := (x.man : ℚ) * (2 : ℚ) ^ x.exp

/-- Number of binary digits of `n`, computed with `fuel` halvings. -/
def bitLen : Nat → Nat → Nat
  | 0, _ => 0
  | fuel + 1, n => if n = 0 then 0 else bitLen fuel (n / 2) + 1

/-- Position of the leading binary digit of `n`: `2 ^ ilog2 n ≤ n < 2 ^ (ilog2 n + 1)` for `n > 0`. -/
def ilog2 (n : Nat) : Nat := bitLen n n - 1

/-- The exponent `e` at which `a / b` (`a, b > 0`) has a 53-bit integer part:
`2 ^ 52 ≤ a / (b * 2 ^ e) < 2 ^ 53`. -/
def roundExp (a b : Nat) : Int :=
  let e0 : Int := (ilog2 a : Int) - (ilog2 b : Int) - 52
  if 2 ^ 52 * (b * 2 ^ e0.toNat) ≤ a * 2 ^ (-e0).toNat then e0 else e0 - 1

/-- The integer nearest to `n / d`, ties to the even one. -/
def roundSig (n d : Nat) : Nat :=
  let q := n / d
  let r := n % d
  if 2 * r < d ∨ (2 * r = d ∧ q % 2 = 0) then q else q + 1

/-- Round the exact quotient `a / b` (`b > 0`) to the nearest binary64 value, ties to
even: the quotient is scaled by the power of two that brings it into
`[2 ^ 52, 2 ^ 53)` and rounded to an integer significand. -/
def round (a b : Nat) : F64 :=
  if a = 0 then ⟨0, 0⟩ else
  let e := roundExp a b
  let m := roundSig (a * 2 ^ (-e).toNat) (b * 2 ^ e.toNat)
  if m = 2 ^ 53 then ⟨2 ^ 52, e + 1⟩ else ⟨m, e⟩

/-- The number denoted by an integer (exact below `2 ^ 53`). -/
def ofNat (n : Nat) : F64 := round n 1

/-- The number denoted by the decimal literal `a / b`, such as `0.70` for `7 / 10`. -/
def lit (a b : Nat) : F64 := round a b

/-- JavaScript `x / y` for `y ≠ 0`. -/
def div (x y : F64) : F64 :=
  round (x.man * 2 ^ (x.exp - y.exp).toNat) (y.man * 2 ^ (y.exp - x.exp).toNat)

/-- JavaScript `x * y`. -/
def mul (x y : F64) : F64 :=
  round (x.man * y.man * 2 ^ (x.exp + y.exp).toNat) (2 ^ (-(x.exp + y.exp)).toNat)

/-- Comparison `x <= y` of the values, by cross-multiplication. -/
def le (x y : F64) : Bool :=
  decide (x.man * 2 ^ (x.exp - y.exp).toNat ≤ y.man * 2 ^ (y.exp - x.exp).toNat)

/-- JavaScript `Math.min(x, y)`. -/
def min (x y : F64) : F64 := if x.le y then x else y

/-- JavaScript `Math.floor(x)`, as an integer. -/
def floor (x : F64) : Nat := x.man * 2 ^ x.exp.toNat / 2 ^ (-x.exp).toNat

/-- JavaScript `Math.round(x)`: the integer nearest to `x`, halves rounded up. -/
def jsRound (x : F64) : Nat :=
  (2 * (x.man * 2 ^ x.exp.toNat) + 2 ^ (-x.exp).toNat) / (2 * 2 ^ (-x.exp).toNat)

end F64

/-! ## Strings

JavaScript strings are modelled as `String`; `length` counts characters, which agrees
with JavaScript on the ASCII text of MIME types and base64 payloads. -/

/-- JavaScript `s.startsWith(p)`. -/
def startsWith (s p : String) : Bool := p.toList.isPrefixOf s.toList

/-- The pieces of a character list between occurrences of `sep`. -/
def splitChars (sep : Char) : List Char → List (List Char)
  | [] => [[]]
  | c :: cs =>
    if c = sep then [] :: splitChars sep cs
    else match splitChars sep cs with
      | [] => [[c]]
      | p :: ps => (c :: p) :: ps

/-- JavaScript `s.split(',')`. -/
def splitComma (s : String) : List String := (splitChars ',' s.toList).map String.mk

/-- JavaScript `s.split(',')[1]`, `none` for `undefined`. -/
def commaPart1 (s : String) : Option String := (splitComma s)[1]?

/-! ## Component state -/

/-- Pixel dimensions `{ width, height }`. -/
structure Size where
  width : Nat
  height : Nat
  deriving DecidableEq, Repr

/-- A candidate `File`: its declared MIME `type`, its byte length `size`, and what decoding
its bytes gives: the natural dimensions of the image, or `none` when the bytes are not a
decodable raster image (`img.onload` never fires). -/
structure File where
  type : String
  size : Nat
  image : Option Size
  deriving DecidableEq, Repr

/-- The value `resizeImage` resolves with. -/
structure ResizeResult where
  dataUrl : String
  originalSize : Size
  newSize : Size
  estimatedSize : Nat
  outputFormat : String
  originalFormat : String
  deriving DecidableEq, Repr

/-- The `previewImage` state: `{ ...result, originalFile: file }`. -/
structure Preview where
  result : ResizeResult
  originalFile : File
  deriving DecidableEq, Repr

/-- The `currentImage` state. -/
structure CurrentImage where
  url : String
  sha : Option String
  size : Option Nat
  repo : String
  deriving DecidableEq, Repr

/-- The `processingImage` state: the placeholder shown after a write. -/
structure ProcessingImage where
  dataUrl : String
  timestamp : String
  deriving DecidableEq, Repr

/-- An entry of `recentImages`, as returned by the persistence service. -/
structure RecentImage where
  thumbnail : String
  size : Nat
  timestamp : String
  deriving DecidableEq, Repr

/-- The `toast` state `{ message, type }`. -/
structure Toast where
  message : String
  type : String
  deriving DecidableEq, Repr

/-- The `config` state `{ githubToken, repoPath }`; an absent field is the empty string. -/
structure Config where
  githubToken : String
  repoPath : String
  deriving DecidableEq, Repr

/-- A callback registered with `setTimeout`, with its delay in milliseconds.  A re-read
runs the `loadCurrentImage` of the render that scheduled it, so it carries the token and
repository path of that render. -/
inductive Timer where
  | clearToast (delay : Nat)
  | reload (delay : Nat) (token repo : String)
  deriving DecidableEq, Repr

/-- A request issued with `fetch`. -/
inductive Request where
  | getContents (repo filename token : String)
  | putContents (repo filename token message : String) (content sha : Option String)
  | postRecent (dataUrl timestamp : String) (size : Nat)
  | getUrl (url : String)
  deriving DecidableEq, Repr

/-- The component state (the `useState` cells that the pipeline reads or writes),
together with the timers registered and the requests issued so far. -/
structure State where
  uploading : Bool
  progress : Nat
  toast : Option Toast
  currentImage : Option CurrentImage
  previewImage : Option Preview
  recentImages : List RecentImage
  processingImage : Option ProcessingImage
  compressionMode : String
  quality : Nat
  preset : String
  githubToken : String
  repoPath : String
  config : Config
  estimatedSize : Option Nat
  timers : List Timer
  requests : List Request
  deriving DecidableEq, Repr

/-- The state after the `useState` initialisers. -/
def State.init : State where
  uploading := false
  progress := 0
  toast := none
  currentImage := none
  previewImage := none
  recentImages := []
  processingImage := none
  compressionMode := "preset"
  quality := 80
  preset := "medium"
  githubToken := ""
  repoPath := ""
  config := ⟨"", ""⟩
  estimatedSize := none
  timers := []
  requests := []

/-- `showToast(message, type)`: set the toast and register its removal after 3000 ms. -/
def showToast (message : String) (type : String) (s : State) : State :=
  { s with toast := some ⟨message, type⟩, timers := s.timers ++ [Timer.clearToast 3000] }

/-! ## SizeEstimator -/

/-- `getCompressionQuality()`.  `quality` holds the slider position (an integer, also when
it arrives as the string of `e.target.value`, which `/` converts). -/
def getCompressionQuality (s : State) : F64 :=
  if s.compressionMode = "none" then F64.lit 10 10
  else if s.compressionMode = "manual" then F64.div (F64.ofNat s.quality) (F64.ofNat 100)
  else
    match s.preset with
    | "high" => F64.lit 90 100
    | "medium" => F64.lit 70 100
    | "low" => F64.lit 50 100
    | _ => F64.lit 70 100

/-! ## ImageTranscoder -/

/-- `canvas.toDataURL(type, quality)` of the canvas on which the decoded `file` was drawn
at the given size.  The codec is not modelled: the encoder is a parameter. -/
abbrev Encoder := File → Size → String → F64 → String

/-- The target dimensions computed at the head of `img.onload` (lines 253 to 261). -/
def targetSize (img : Size) : Size :=
  if img.width > 2048 ∨ img.height > 2048 then
    let ratio := F64.min (F64.div (F64.ofNat 2048) (F64.ofNat img.width))
      (F64.div (F64.ofNat 2048) (F64.ofNat img.height))
    ⟨F64.floor (F64.mul (F64.ofNat img.width) ratio),
     F64.floor (F64.mul (F64.ofNat img.height) ratio)⟩
  else img

/-- `resizeImage(file)`: the value the promise resolves with, or `none` when it never
resolves (the image does not decode, or `dataUrl.split(',')[1]` is `undefined` and
`onload` throws). -/
def resizeImage (enc : Encoder) (s : State) (file : File) : Option ResizeResult :=
  match file.image with
  | none => none
  | some img =>
    let originalSize := img
    let newSize := targetSize img
    let isJpg := file.type = "image/jpeg" ∨ file.type = "image/jpg"
    let isPng := file.type = "image/png"
    let out : String × String :=
      if isJpg then
        let finalQuality := getCompressionQuality s
        (enc file newSize "image/jpeg" finalQuality, "jpeg")
      else
        let finalQuality := getCompressionQuality s
        (enc file newSize "image/jpeg" finalQuality, "jpeg")
    match commaPart1 out.1 with
    | none => none
    | some base64 =>
      let actualSize := F64.jsRound (F64.mul (F64.ofNat base64.length) (F64.lit 75 100))
      some {
        dataUrl := out.1
        originalSize := originalSize
        newSize := newSize
        estimatedSize := actualSize
        outputFormat := out.2
        originalFormat := if isJpg then "jpeg" else (if isPng then "png" else "other") }

/-! ## Network outcomes -/

/-- What `await fetch(...)` gives, with the outcome of `await response.json()` where the
code reads the body: the promise rejects (network failure), or a response arrives with
its `ok` flag and either the parsed body or the message of the parse failure. -/
inductive Fetch (β : Type) where
  | networkError (message : String)
  | response (ok : Bool) (json : Except String β)

/-- The `response.ok` flag of the outcome; a rejected `fetch` has none and counts as not ok. -/
def Fetch.isOk {β : Type} : Fetch β → Bool
  | Fetch.networkError _ => false
  | Fetch.response ok _ => ok

/-- Body of `GET /repos/{repo}/contents/{file}`: the fields the code reads, each possibly
`undefined`. -/
structure ContentsBody where
  sha : Option String
  size : Option Nat

/-- Error body of the store: `error.message`, possibly `undefined`. -/
structure ErrorBody where
  message : Option String

/-- Body of `POST /api/recent`: `data.images`, possibly `undefined`. -/
structure RecentBody where
  images : Option (List RecentImage)

/-- The readings of `new Date().toISOString()` made during one call, by position. -/
abbrev Clock := Nat → String

/-- `config.githubToken || githubToken`. -/
def effectiveToken (s : State) : String :=
  if s.config.githubToken ≠ "" then s.config.githubToken else s.githubToken

/-- `config.repoPath || repoPath`. -/
def effectiveRepo (s : State) : String :=
  if s.config.repoPath ≠ "" then s.config.repoPath else s.repoPath

/-! ## ReconciliationScheduler -/

/-- The body of `loadCurrentImage` for the token and path its closure holds; `nowMs` is
`Date.now()`. -/
def loadCurrentImageWith (token repo : String) (resp : Fetch ContentsBody) (nowMs : Nat)
    (s : State) : State :=
  if token = "" ∨ repo = "" then s
  else
    let s := { s with requests := s.requests ++ [Request.getContents repo "image1.jpg" token] }
    match resp with
    | Fetch.networkError _ => s
    | Fetch.response false _ => s
    | Fetch.response true (Except.error _) => s
    | Fetch.response true (Except.ok data) =>
      { s with
        currentImage := some {
          url := "https://raw.githubusercontent.com/" ++ repo ++ "/main/image1.jpg?t="
            ++ toString nowMs
          sha := data.sha
          size := data.size
          repo := repo }
        processingImage := none }

/-- `loadCurrentImage()` called from the render whose state is `render`, acting on the
live state `s`. -/
def loadCurrentImage (render : State) (resp : Fetch ContentsBody) (nowMs : Nat)
    (s : State) : State :=
  loadCurrentImageWith (effectiveToken render) (effectiveRepo render) resp nowMs s

/-- A registered re-read timer fires: `() => { loadCurrentImage(); }`. -/
def fireTimer (t : Timer) (resp : Fetch ContentsBody) (nowMs : Nat) (s : State) : State :=
  match t with
  | Timer.clearToast _ => { s with toast := none }
  | Timer.reload _ token repo => loadCurrentImageWith token repo resp nowMs s

/-- The Refresh button: `setProcessingImage(null); loadCurrentImage(); showToast(...)`. -/
def refresh (resp : Fetch ContentsBody) (nowMs : Nat) (s : State) : State :=
  let s1 := { s with processingImage := none }
  let s2 := loadCurrentImage s resp nowMs s1
  showToast "Refreshing image..." "success" s2

/-! ## UploadCoordinator -/

/-- `saveRecentToServer(imageData, size)`. -/
def saveRecentToServer (imageData : String) (size : Nat) (resp : Fetch RecentBody)
    (timestamp : String) (s : State) : State :=
  let s := { s with requests := s.requests ++ [Request.postRecent imageData timestamp size] }
  match resp with
  | Fetch.response true (Except.ok data) => { s with recentImages := data.images.getD [] }
  | _ => s

/-- Message of the `TypeError` raised by `base64Data.length` on `undefined`. -/
def undefinedLengthMessage : String := "Cannot read properties of undefined (reading 'length')"

/-- The version token after the read step of `uploadToGitHub`: `data.sha` of a 2xx answer
with a readable body, otherwise the initial `null`. -/
def readSha (read : Fetch ContentsBody) : Option String :=
  match read with
  | Fetch.response true (Except.ok data) => data.sha
  | _ => none

/-- `uploadToGitHub(imageData)`: `read`, `write` and `save` are the outcomes of its three
requests, in order. -/
def uploadToGitHub (imageData : String) (read : Fetch ContentsBody) (write : Fetch ErrorBody)
    (save : Fetch RecentBody) (now : Clock) (s : State) : State :=
  let token := effectiveToken s
  let repo := effectiveRepo s
  if token = "" ∨ repo = "" then showToast "GitHub settings not configured" "error" s
  else
    let filename := "image1.jpg"
    let s := { s with progress := 25 }
    let s := { s with requests := s.requests ++ [Request.getContents repo filename token] }
    let sha : Option String := readSha read
    let s := { s with progress := 50 }
    let base64Data := commaPart1 imageData
    let message := "Update " ++ filename ++ " - " ++ now 0
    let shaField : Option String := sha.filter (fun x => x ≠ "")
    let s := { s with progress := 75 }
    let s := { s with requests :=
      s.requests ++ [Request.putContents repo filename token message base64Data shaField] }
    match write with
    | Fetch.networkError msg => showToast ("Upload failed: " ++ msg) "error" s
    | Fetch.response true _ =>
      let s := { s with progress := 100 }
      let s := showToast "Image uploaded successfully!" "success" s
      let s := { s with processingImage := some ⟨imageData, now 1⟩ }
      let s := { s with timers := s.timers ++ [Timer.reload 10000 token repo] }
      match base64Data with
      | none => showToast ("Upload failed: " ++ undefinedLengthMessage) "error" s
      | some b =>
        let size := F64.jsRound (F64.mul (F64.ofNat b.length) (F64.lit 75 100))
        saveRecentToServer imageData size save (now 2) s
    | Fetch.response false (Except.error msg) =>
      showToast ("Upload failed: " ++ msg) "error" { s with progress := 100 }
    | Fetch.response false (Except.ok error) =>
      let msg := match error.message with
        | some m => if m ≠ "" then m else "Upload failed"
        | none => "Upload failed"
      showToast ("Upload failed: " ++ msg) "error" { s with progress := 100 }

/-! ## PresentationController entry points -/

/-- `handleFile(file)`; `none` is a missing file.  When `resizeImage` never resolves the
call stays suspended and the state is as before. -/
def handleFile (enc : Encoder) (file : Option File) (s : State) : State :=
  match file with
  | none => showToast "Please select an image file" "error" s
  | some f =>
    if !startsWith f.type "image/" then showToast "Please select an image file" "error" s
    else if f.size > 20 * 1024 * 1024 then showToast "File too large (max 20MB)" "error" s
    else
      match resizeImage enc s f with
      | none => s
      | some result =>
        showToast "Image ready for upload" "success" { s with previewImage := some ⟨result, f⟩ }

/-- `confirmUpload()`. -/
def confirmUpload (read : Fetch ContentsBody) (write : Fetch ErrorBody)
    (save : Fetch RecentBody) (now : Clock) (s : State) : State :=
  match s.previewImage with
  | none => s
  | some p =>
    let s := { s with uploading := true }
    let s := { s with progress := 0 }
    let s := uploadToGitHub p.result.dataUrl read write save now s
    { s with uploading := false, progress := 0, previewImage := none, estimatedSize := none }

/-- `reuseImage(imageData)`.  For an `http` address `fetched` is the data URL read from the
fetched blob, `none` when that fetch rejects (the rejection leaves through `finally`). -/
def reuseImage (imageData : String) (fetched : Option String) (read : Fetch ContentsBody)
    (write : Fetch ErrorBody) (save : Fetch RecentBody) (now : Clock) (s : State) : State :=
  let render := s
  let s := { s with uploading := true }
  let upload (dataUrl : String) (s : State) : State :=
    let s := uploadToGitHub dataUrl read write save now s
    let s := { s with processingImage := some ⟨dataUrl, now 3⟩ }
    let s := { s with timers :=
      s.timers ++ [Timer.reload 3000 (effectiveToken render) (effectiveRepo render)] }
    { s with uploading := false }
  if startsWith imageData "http" then
    let s := { s with requests := s.requests ++ [Request.getUrl imageData] }
    match fetched with
    | none => { s with uploading := false }
    | some dataUrl => upload dataUrl s
  else upload imageData s

/-- The address built by both places that show the public URL, from the chosen repository
path: `const [username, repoName] = path.split('/')` and the template
`https://${username}.github.io/${repoName}/image1.jpg`; a missing segment prints as
`undefined`. -/
def pagesUrl (path : String) : String :=
  let parts := (splitChars '/' path.toList).map String.mk
  let username := (parts[0]?).getD "undefined"
  let repoName := (parts[1]?).getD "undefined"
  "https://" ++ username ++ ".github.io/" ++ repoName ++ "/image1.jpg"

/-- `currentImage.repo || repoPath || config.repoPath`. -/
def urlRepo (cur : CurrentImage) (s : State) : String :=
  if cur.repo ≠ "" then cur.repo else if s.repoPath ≠ "" then s.repoPath else s.config.repoPath

/-- The text the copy button of the "VRChat URL" row puts on the clipboard (lines 630 to
633); the row exists only while `currentImage` is set. -/
def copiedUrl (s : State) : Option String :=
  match s.currentImage with
  | none => none
  | some cur => some (pagesUrl (urlRepo cur s))

/-- The text shown in the `code` element of the "VRChat URL" row (lines 639 to 642). -/
def displayedUrl (s : State) : Option String :=
  match s.currentImage with
  | none => none
  | some cur => some (pagesUrl (urlRepo cur s))

/-- The public read URL in the words of the specification:
`{host}/{owner}/{repoName}/{fixedFilename}`, owner and repoName being the first two
segments of `resourcePath` split on `/`. -/
def specReadUrl (host resourcePath : String) : String :=
  let parts := (splitChars '/' resourcePath.toList).map String.mk
  host ++ "/" ++ (parts[0]?).getD "" ++ "/" ++ (parts[1]?).getD "" ++ "/" ++ "image1.jpg"

/-- The re-read timers among registered timers. -/
def reloads (ts : List Timer) : List Timer :=
  ts.filter (fun t => match t with
    | Timer.reload _ _ _ => true
    | Timer.clearToast _ => false)

/-- The target dimensions in the words of the specification, in exact arithmetic: when a
side exceeds 2048 both sides are multiplied by `min(2048 / width, 2048 / height)` and
floored, otherwise they are kept. -/
def specTargetSize (img : Size) : Size :=
  if img.width > 2048 ∨ img.height > 2048 then
    ⟨⌊(img.width : ℚ) * min (2048 / (img.width : ℚ)) (2048 / (img.height : ℚ))⌋₊,
     ⌊(img.height : ℚ) * min (2048 / (img.width : ℚ)) (2048 / (img.height : ℚ))⌋₊⟩
  else img

/-- A click on the Refresh button.  The button is part of the "Current Image" card, which
is rendered as `{currentImage && (...)}` (lines 595 to 611): while `currentImage` is null
there is no button and no click, `none`. -/
def clickRefresh (resp : Fetch ContentsBody) (nowMs : Nat) (s : State) : Option State :=
  match s.currentImage with
  | none => none
  | some _ => some (refresh resp nowMs s)

/-- A write that is not answered 2xx, or is not attempted for lack of configuration. -/
def writeFails (s : State) (write : Fetch ErrorBody) : Prop :=
  effectiveToken s = "" ∨ effectiveRepo s = "" ∨ write.isOk = false


/-! ## Sample inputs -/



/-- An encoder that always produces the same small JPEG data URL. -/
def sampleEncoder : Encoder := fun _ _ _ _ => "data:image/jpeg;base64,AAAA"

/-- A 4000 x 3000 PNG file of three million bytes. -/
def samplePng : File := ⟨"image/png", 3000000, some ⟨4000, 3000⟩⟩

/-- A configured state: token and repository path are known. -/
def sampleState : State := { State.init with config := ⟨"token", "owner/repo"⟩ }

/-- A configured state that shows a placeholder from an earlier upload. -/
def samplePending : State :=
  { sampleState with processingImage := some ⟨"data:image/jpeg;base64,BBBB", "earlier"⟩ }

/-- A clock that answers every reading with the same instant. -/
def sampleClock : Clock := fun _ => "2024-01-01T00:00:00.000Z"

/-- A configured state that holds the preview of the sample PNG, ready to upload. -/
def samplePreview : State :=
  { sampleState with
    previewImage := some ⟨⟨"data:image/jpeg;base64,AAAA", ⟨4000, 3000⟩, ⟨2048, 1536⟩, 3, "jpeg",
      "png"⟩, samplePng⟩ }

/-- A configured state whose current image was read from `owner/repo`. -/
def sampleLoaded : State :=
  { sampleState with
    currentImage := some ⟨"https://raw.githubusercontent.com/owner/repo/main/image1.jpg?t=0",
      some "abc123", some 1000, "owner/repo"⟩ }

/-- The loaded state while the placeholder of a later upload is shown. -/
def sampleLoadedPending : State :=
  { sampleLoaded with processingImage := some ⟨"data:image/jpeg;base64,BBBB", "earlier"⟩ }

/-- A 5472 x 3648 photograph, as a JPEG file of six million bytes. -/
def samplePhoto : File := ⟨"image/jpeg", 6000000, some ⟨5472, 3648⟩⟩

/-- The store answers a read with the version `abc123`. -/
def sampleRead : Fetch ContentsBody := Fetch.response true (Except.ok ⟨some "abc123", some 1000⟩)

/-- The store accepts a write. -/
def sampleWritten : Fetch ErrorBody := Fetch.response true (Except.error "")

/-- The sample state after a first upload that the store accepted. -/
def sampleAfterFirst : State :=
  uploadToGitHub "data:image/jpeg;base64,AAAA" sampleRead sampleWritten (Fetch.networkError "")
    sampleClock sampleState

/-- The state after a second accepted upload, made while the first re-read is outstanding. -/
def sampleAfterSecond : State :=
  uploadToGitHub "data:image/jpeg;base64,BBBB" sampleRead sampleWritten (Fetch.networkError "")
    sampleClock sampleAfterFirst

/-- The store refuses the write with status 409. -/
def sampleConflict : Fetch ErrorBody :=
  Fetch.response false (Except.ok ⟨some "image1.jpg does not match"⟩)

/-! ## Facts about the binary64 model -/

namespace F64

theorem bitLen_zero (fuel : Nat) : bitLen fuel 0 = 0 := by
  cases fuel <;> simp [bitLen]

theorem bitLen_spec (fuel : Nat) : ∀ n : Nat, 0 < n → n ≤ fuel →
    2 ^ (bitLen fuel n - 1) ≤ n ∧ n < 2 ^ bitLen fuel n := by
  induction fuel with
  | zero => intro n h0 h1; omega
  | succ k ih =>
    intro n h0 h1
    have hn : n ≠ 0 := by omega
    simp only [bitLen, hn, if_false]
    rcases Nat.eq_zero_or_pos (n / 2) with hz | hp
    · have h1n : n = 1 := by omega
      subst h1n
      simp [bitLen_zero]
    · have hk : n / 2 ≤ k := by omega
      obtain ⟨l, u⟩ := ih (n / 2) hp hk
      have hb : 1 ≤ bitLen k (n / 2) := by
        rcases Nat.eq_zero_or_pos (bitLen k (n / 2)) with h | h
        · rw [h] at u; simp at u; omega
        · exact h
      have e1 : bitLen k (n / 2) + 1 - 1 = (bitLen k (n / 2) - 1) + 1 := by omega
      rw [e1, pow_succ, pow_succ]
      constructor <;> omega

theorem ilog2_spec (n : Nat) (h : 0 < n) : 2 ^ ilog2 n ≤ n ∧ n < 2 ^ (ilog2 n + 1) := by
  obtain ⟨l, u⟩ := bitLen_spec n n h le_rfl
  have hb : 1 ≤ bitLen n n := by
    rcases Nat.eq_zero_or_pos (bitLen n n) with h0 | h0
    · rw [h0] at u; simp at u; omega
    · exact h0
  unfold ilog2
  have e1 : bitLen n n - 1 + 1 = bitLen n n := by omega
  rw [e1]
  exact ⟨l, u⟩

/-- The two one-sided powers of two that stand for `2 ^ x`. -/
theorem two_pow_toNat (x : Int) :
    ((2 : ℚ) ^ x.toNat) = (2 : ℚ) ^ x * (2 : ℚ) ^ (-x).toNat := by
  rcases le_total 0 x with h | h
  · have h1 : (-x).toNat = 0 := by omega
    rw [h1, pow_zero, mul_one]
    conv_rhs => rw [← Int.toNat_of_nonneg h]
    rw [zpow_natCast]
  · obtain ⟨k, rfl⟩ : ∃ k : Nat, x = -(k : Int) := ⟨(-x).toNat, by omega⟩
    have h1 : (-(k : Int)).toNat = 0 := by omega
    have h2 : (- -(k : Int)).toNat = k := by omega
    rw [h1, h2, pow_zero, zpow_neg, zpow_natCast]
    have : ((2 : ℚ) ^ k) ≠ 0 := by positivity
    field_simp

theorem roundSig_exact (m d : Nat) (hd : 0 < d) : roundSig (m * d) d = m := by
  unfold roundSig
  simp [Nat.mul_div_cancel _ hd, hd]

theorem roundExp_eq (a b m : Nat) (t : Int) (ha : 0 < a) (hb : 0 < b)
    (hm : 2 ^ 52 ≤ m) (hm' : m < 2 ^ 53) (h : (a : ℚ) = m * (2 : ℚ) ^ t * b) :
    roundExp a b = t := by
  obtain ⟨la1, la2⟩ := ilog2_spec a ha
  obtain ⟨lb1, lb2⟩ := ilog2_spec b hb
  have A1 : (2 : ℚ) ^ (ilog2 a : Int) ≤ a := by
    rw [zpow_natCast]; exact_mod_cast la1
  have A2 : (a : ℚ) < (2 : ℚ) ^ ((ilog2 a : Int) + 1) := by
    have e : ((ilog2 a : Int) + 1) = ((ilog2 a + 1 : Nat) : Int) := by push_cast; ring
    rw [e, zpow_natCast]; exact_mod_cast la2
  have B1 : (2 : ℚ) ^ (ilog2 b : Int) ≤ b := by
    rw [zpow_natCast]; exact_mod_cast lb1
  have B2 : (b : ℚ) < (2 : ℚ) ^ ((ilog2 b : Int) + 1) := by
    have e : ((ilog2 b : Int) + 1) = ((ilog2 b + 1 : Nat) : Int) := by push_cast; ring
    rw [e, zpow_natCast]; exact_mod_cast lb2
  have M1 : (2 : ℚ) ^ (52 : Int) ≤ m := by
    have : ((2 ^ 52 : Nat) : ℚ) ≤ m := by exact_mod_cast hm
    norm_num at this ⊢
    exact this
  have M2 : (m : ℚ) < (2 : ℚ) ^ (53 : Int) := by
    have : (m : ℚ) < ((2 ^ 53 : Nat) : ℚ) := by exact_mod_cast hm'
    norm_num at this ⊢
    exact this
  have two0 : (2 : ℚ) ≠ 0 := by norm_num
  have P : (0 : ℚ) < (2 : ℚ) ^ t := by positivity
  have bpos : (0 : ℚ) < b := by exact_mod_cast hb
  have mpos : (0 : ℚ) < m := lt_of_lt_of_le (by positivity) M1
  have T1 : 52 + t + (ilog2 b : Int) < (ilog2 a : Int) + 1 := by
    have hlt : (2 : ℚ) ^ (52 + t + (ilog2 b : Int)) < (2 : ℚ) ^ ((ilog2 a : Int) + 1) := by
      calc (2 : ℚ) ^ (52 + t + (ilog2 b : Int))
          = (2 : ℚ) ^ (52 : Int) * (2 : ℚ) ^ t * (2 : ℚ) ^ (ilog2 b : Int) := by
            rw [zpow_add₀ two0, zpow_add₀ two0]
        _ ≤ m * (2 : ℚ) ^ t * b := by
            apply mul_le_mul _ B1 (by positivity) (by positivity)
            exact mul_le_mul_of_nonneg_right M1 P.le
        _ = a := h.symm
        _ < _ := A2
    exact (zpow_lt_zpow_iff_right₀ (by norm_num)).mp hlt
  have T2 : (ilog2 a : Int) < 53 + t + ((ilog2 b : Int) + 1) := by
    have hlt : (2 : ℚ) ^ (ilog2 a : Int) < (2 : ℚ) ^ (53 + t + ((ilog2 b : Int) + 1)) := by
      calc (2 : ℚ) ^ (ilog2 a : Int) ≤ a := A1
        _ = m * (2 : ℚ) ^ t * b := h
        _ < (2 : ℚ) ^ (53 : Int) * (2 : ℚ) ^ t * (2 : ℚ) ^ ((ilog2 b : Int) + 1) := by
            apply mul_lt_mul'' _ B2 (by positivity) bpos.le
            exact mul_lt_mul_of_pos_right M2 P
        _ = _ := by
            rw [zpow_add₀ two0 (53 + t) ((ilog2 b : Int) + 1), zpow_add₀ two0 53 t]
    exact (zpow_lt_zpow_iff_right₀ (by norm_num)).mp hlt
  unfold roundExp
  simp only []
  generalize he0 : (ilog2 a : Int) - (ilog2 b : Int) - 52 = e0
  have hcases : t = e0 ∨ t = e0 - 1 := by omega
  have Q : (0 : ℚ) < (2 : ℚ) ^ (-e0).toNat := by positivity
  rcases hcases with rfl | rfl
  · rw [if_pos]
    have hq : ((2 ^ 52 * (b * 2 ^ t.toNat) : Nat) : ℚ) ≤ ((a * 2 ^ (-t).toNat : Nat) : ℚ) := by
      push_cast
      rw [two_pow_toNat t, h]
      calc (2 : ℚ) ^ 52 * (b * ((2 : ℚ) ^ t * (2 : ℚ) ^ (-t).toNat))
          = (2 : ℚ) ^ (52 : Int) * (b * (2 : ℚ) ^ t * (2 : ℚ) ^ (-t).toNat) := by
            norm_num; ring
        _ ≤ m * (b * (2 : ℚ) ^ t * (2 : ℚ) ^ (-t).toNat) :=
            mul_le_mul_of_nonneg_right M1 (by positivity)
        _ = _ := by ring
    exact_mod_cast hq
  · rw [if_neg]
    intro hc
    have hq : ((2 ^ 52 * (b * 2 ^ e0.toNat) : Nat) : ℚ) ≤ ((a * 2 ^ (-e0).toNat : Nat) : ℚ) := by
      exact_mod_cast hc
    push_cast at hq
    rw [two_pow_toNat e0, h, zpow_sub_one₀ two0] at hq
    have hY : (0 : ℚ) < b * (2 : ℚ) ^ e0 * (2 : ℚ) ^ (-e0).toNat := by positivity
    have h53 : (2 : ℚ) ^ (53 : Int) * (b * (2 : ℚ) ^ e0 * (2 : ℚ) ^ (-e0).toNat)
        ≤ m * (b * (2 : ℚ) ^ e0 * (2 : ℚ) ^ (-e0).toNat) := by
      have e1 : (2 : ℚ) ^ (53 : Int) = 2 * (2 : ℚ) ^ 52 := by norm_num
      rw [e1]
      have := mul_le_mul_of_nonneg_left hq (by norm_num : (0 : ℚ) ≤ 2)
      calc 2 * (2 : ℚ) ^ 52 * (b * (2 : ℚ) ^ e0 * (2 : ℚ) ^ (-e0).toNat)
          = 2 * ((2 : ℚ) ^ 52 * (b * ((2 : ℚ) ^ e0 * (2 : ℚ) ^ (-e0).toNat))) := by ring
        _ ≤ 2 * (m * ((2 : ℚ) ^ e0 * 2⁻¹) * b * (2 : ℚ) ^ (-e0).toNat) := this
        _ = _ := by ring
    have := le_of_mul_le_mul_right h53 hY
    exact absurd M2 (not_lt.mpr this)

/-- A quotient that is a binary64 value is returned as it is. -/
theorem round_eq (a b m : Nat) (t : Int) (ha : 0 < a) (hb : 0 < b)
    (hm : 2 ^ 52 ≤ m) (hm' : m < 2 ^ 53) (h : (a : ℚ) = m * (2 : ℚ) ^ t * b) :
    round a b = ⟨m, t⟩ := by
  have hn : a * 2 ^ (-t).toNat = m * (b * 2 ^ t.toNat) := by
    have hq : ((a * 2 ^ (-t).toNat : Nat) : ℚ) = ((m * (b * 2 ^ t.toNat) : Nat) : ℚ) := by
      push_cast
      rw [two_pow_toNat t, h]
      ring
    exact_mod_cast hq
  have hd : 0 < b * 2 ^ t.toNat := by positivity
  have ha0 : a ≠ 0 := by omega
  unfold round
  simp only [ha0, if_false, roundExp_eq a b m t ha hb hm hm' h, hn, roundSig_exact _ _ hd]
  rw [if_neg (by omega)]

theorem toRat_round_zero (b : Nat) : (round 0 b).toRat = 0 := by
  simp [round, toRat]

/-- Rounding is exact on every quotient `k * 2 ^ c` whose significand `k` fits 53 bits. -/
theorem toRat_round_exact (a b k : Nat) (c : Int) (ha : 0 < a) (hb : 0 < b)
    (hk : k < 2 ^ 53) (h : (a : ℚ) = k * (2 : ℚ) ^ c * b) :
    (round a b).toRat = k * (2 : ℚ) ^ c := by
  have two0 : (2 : ℚ) ≠ 0 := by norm_num
  have hk0 : 0 < k := by
    rcases Nat.eq_zero_or_pos k with h0 | h0
    · subst h0
      have : (a : ℚ) = 0 := by rw [h]; simp
      have : a = 0 := by exact_mod_cast this
      omega
    · exact h0
  obtain ⟨l1, l2⟩ := ilog2_spec k hk0
  have hL : ilog2 k ≤ 52 := by
    have : 2 ^ ilog2 k < 2 ^ 53 := lt_of_le_of_lt l1 hk
    have := (Nat.pow_lt_pow_iff_right (by norm_num : 1 < 2)).mp this
    omega
  have e52 : 2 ^ ilog2 k * 2 ^ (52 - ilog2 k) = 2 ^ 52 := by
    rw [← pow_add]; congr 1; omega
  have e53 : 2 ^ (ilog2 k + 1) * 2 ^ (52 - ilog2 k) = 2 ^ 53 := by
    rw [← pow_add]; congr 1; omega
  have hp : 0 < 2 ^ (52 - ilog2 k) := by positivity
  have hm : 2 ^ 52 ≤ k * 2 ^ (52 - ilog2 k) := by
    rw [← e52]; exact Nat.mul_le_mul_right _ l1
  have hm' : k * 2 ^ (52 - ilog2 k) < 2 ^ 53 := by
    rw [← e53]; exact Nat.mul_lt_mul_of_pos_right l2 hp
  have hval : ((k * 2 ^ (52 - ilog2 k) : Nat) : ℚ) * (2 : ℚ) ^ (c - ((52 - ilog2 k : Nat) : Int))
      = k * (2 : ℚ) ^ c := by
    push_cast
    rw [zpow_sub₀ two0, zpow_natCast]
    have : ((2 : ℚ) ^ (52 - ilog2 k)) ≠ 0 := by positivity
    field_simp
    ring
  have hr := round_eq a b (k * 2 ^ (52 - ilog2 k)) (c - ((52 - ilog2 k : Nat) : Int)) ha hb hm hm'
    (by rw [hval]; exact h)
  rw [hr]
  exact hval

theorem toRat_ofNat (n : Nat) (h : n < 2 ^ 53) : (ofNat n).toRat = n := by
  rcases Nat.eq_zero_or_pos n with h0 | h0
  · subst h0; simp [ofNat, toRat_round_zero]
  · have := toRat_round_exact n 1 n 0 h0 (by norm_num) h (by simp)
    simpa [ofNat] using this

/-- A product whose exact value `k * 2 ^ c` fits 53 bits is computed exactly. -/
theorem toRat_mul_exact (x y : F64) (k : Nat) (c : Int) (hk : k < 2 ^ 53)
    (h : x.toRat * y.toRat = k * (2 : ℚ) ^ c) : (mul x y).toRat = x.toRat * y.toRat := by
  unfold mul
  have hprod : x.toRat * y.toRat = ((x.man * y.man : Nat) : ℚ) * (2 : ℚ) ^ (x.exp + y.exp) := by
    unfold toRat
    rw [zpow_add₀ (by norm_num : (2 : ℚ) ≠ 0)]
    push_cast
    ring
  rcases Nat.eq_zero_or_pos (x.man * y.man) with h0 | h0
  · rw [h0, Nat.zero_mul, toRat_round_zero, hprod, h0]
    simp
  · have ha : 0 < x.man * y.man * 2 ^ (x.exp + y.exp).toNat := by positivity
    have hb : 0 < 2 ^ (-(x.exp + y.exp)).toNat := by positivity
    have hq : ((x.man * y.man * 2 ^ (x.exp + y.exp).toNat : Nat) : ℚ)
        = k * (2 : ℚ) ^ c * ((2 ^ (-(x.exp + y.exp)).toNat : Nat) : ℚ) := by
      rw [← h, hprod]
      push_cast
      rw [two_pow_toNat (x.exp + y.exp)]
      ring
    rw [toRat_round_exact _ _ k c ha hb hk hq, h]

/-- `Math.round` is the floor of the value plus one half. -/
theorem jsRound_eq_floor (x : F64) : jsRound x = ⌊x.toRat + 1 / 2⌋₊ := by
  unfold jsRound
  have hv : x.toRat + 1 / 2
      = ((2 * (x.man * 2 ^ x.exp.toNat) + 2 ^ (-x.exp).toNat : Nat) : ℚ)
        / ((2 * 2 ^ (-x.exp).toNat : Nat) : ℚ) := by
    unfold toRat
    push_cast
    rw [two_pow_toNat x.exp]
    have : ((2 : ℚ) ^ (-x.exp).toNat) ≠ 0 := by positivity
    field_simp
    ring
  rw [hv, Nat.floor_div_eq_div]

/-- The size estimate: `Math.round(n * 0.75)` is `⌊(3 n + 2) / 4⌋` as long as `3 n`
fits the significand. -/
theorem jsRound_mul_075 (n : Nat) (h : 3 * n < 2 ^ 53) :
    jsRound (mul (ofNat n) (lit 75 100)) = (3 * n + 2) / 4 := by
  have hlit : lit 75 100 = ⟨6755399441055744, -53⟩ := by decide
  have hl : (lit 75 100).toRat = 3 / 4 := by
    rw [hlit]; unfold toRat; norm_num
  have hn : (ofNat n).toRat = n := toRat_ofNat n (by omega)
  have hprod : (ofNat n).toRat * (lit 75 100).toRat = ((3 * n : Nat) : ℚ) * (2 : ℚ) ^ (-2 : Int) := by
    rw [hn, hl]; push_cast; norm_num; ring
  have hm := toRat_mul_exact (ofNat n) (lit 75 100) (3 * n) (-2) h hprod
  rw [jsRound_eq_floor, hm, hn, hl]
  have : (n : ℚ) * (3 / 4) + 1 / 2 = ((3 * n + 2 : Nat) : ℚ) / ((4 : Nat) : ℚ) := by
    push_cast; ring
  rw [this, Nat.floor_div_eq_div]

theorem le_iff_toRat (x y : F64) : x.le y = true ↔ x.toRat ≤ y.toRat := by
  unfold le toRat
  rw [decide_eq_true_iff]
  have two0 : (2 : ℚ) ≠ 0 := by norm_num
  have hc : (x.man * 2 ^ (x.exp - y.exp).toNat ≤ y.man * 2 ^ (y.exp - x.exp).toNat)
      ↔ ((x.man : ℚ) * (2 : ℚ) ^ (x.exp - y.exp).toNat
          ≤ (y.man : ℚ) * (2 : ℚ) ^ (y.exp - x.exp).toNat) := by
    constructor
    · intro h; exact_mod_cast h
    · intro h; exact_mod_cast h
  rw [hc, two_pow_toNat (x.exp - y.exp)]
  have e : -(x.exp - y.exp) = y.exp - x.exp := by ring
  rw [e, zpow_sub₀ two0]
  have P : (0 : ℚ) < (2 : ℚ) ^ (y.exp - x.exp).toNat := by positivity
  have Py : (0 : ℚ) < (2 : ℚ) ^ y.exp := by positivity
  constructor
  · intro h
    have h1 : (x.man : ℚ) * ((2 : ℚ) ^ x.exp / (2 : ℚ) ^ y.exp) ≤ y.man := by
      apply le_of_mul_le_mul_right _ P
      calc (x.man : ℚ) * ((2 : ℚ) ^ x.exp / (2 : ℚ) ^ y.exp) * (2 : ℚ) ^ (y.exp - x.exp).toNat
          = (x.man : ℚ) * ((2 : ℚ) ^ x.exp / (2 : ℚ) ^ y.exp * (2 : ℚ) ^ (y.exp - x.exp).toNat) := by
            ring
        _ ≤ _ := h
    have h2 := mul_le_mul_of_nonneg_right h1 Py.le
    have e2 : (x.man : ℚ) * ((2 : ℚ) ^ x.exp / (2 : ℚ) ^ y.exp) * (2 : ℚ) ^ y.exp
        = (x.man : ℚ) * (2 : ℚ) ^ x.exp := by
      field_simp
    rw [e2] at h2
    exact h2
  · intro h
    have h1 : (x.man : ℚ) * ((2 : ℚ) ^ x.exp / (2 : ℚ) ^ y.exp) ≤ y.man := by
      rw [← mul_div_assoc, div_le_iff₀ Py]
      exact h
    have h2 := mul_le_mul_of_nonneg_right h1 P.le
    calc (x.man : ℚ) * ((2 : ℚ) ^ x.exp / (2 : ℚ) ^ y.exp * (2 : ℚ) ^ (y.exp - x.exp).toNat)
        = (x.man : ℚ) * ((2 : ℚ) ^ x.exp / (2 : ℚ) ^ y.exp) * (2 : ℚ) ^ (y.exp - x.exp).toNat := by
          ring
      _ ≤ _ := h2

theorem toRat_pos (x : F64) (h : 0 < x.man) : 0 < x.toRat := by
  unfold toRat
  have : (0 : ℚ) < x.man := by exact_mod_cast h
  positivity

end F64

/-! ## Facts about the string helpers -/

theorem splitChars_no_sep (sep : Char) (l : List Char) (h : sep ∉ l) :
    splitChars sep l = [l] := by
  induction l with
  | nil => rfl
  | cons c cs ih =>
    have hc : c ≠ sep := fun e => h (by simp [e])
    have hcs : sep ∉ cs := fun e => h (by simp [e])
    simp [splitChars, hc, ih hcs]

theorem splitChars_append (sep : Char) (pre rest : List Char) (h : sep ∉ pre) :
    splitChars sep (pre ++ sep :: rest) = pre :: splitChars sep rest := by
  induction pre with
  | nil => simp [splitChars]
  | cons c cs ih =>
    have hc : c ≠ sep := fun e => h (by simp [e])
    have hcs : sep ∉ cs := fun e => h (by simp [e])
    simp [splitChars, hc, ih hcs]

/-- In a data URL `header,payload` with a comma in neither part, `split(',')[1]` is the
payload. -/
theorem commaPart1_dataUrl (header payload : String) (hh : ',' ∉ header.toList)
    (hp : ',' ∉ payload.toList) : commaPart1 (header ++ "," ++ payload) = some payload := by
  have e : (header ++ "," ++ payload).toList = header.toList ++ ',' :: payload.toList := by
    simp [String.toList]
  unfold commaPart1 splitComma
  rw [e, splitChars_append _ _ _ hh, splitChars_no_sep _ _ hp]
  simp [String.toList]

/-! ## Facts about `resizeImage` -/

/-- The value `resizeImage` resolves with, when the image decodes and the encoded data URL
has a payload part. -/
theorem resizeImage_some (enc : Encoder) (s : State) (file : File) (img : Size) (p : String)
    (hdec : file.image = some img)
    (hp : commaPart1 (enc file (targetSize img) "image/jpeg" (getCompressionQuality s)) = some p) :
    resizeImage enc s file = some {
      dataUrl := enc file (targetSize img) "image/jpeg" (getCompressionQuality s)
      originalSize := img
      newSize := targetSize img
      estimatedSize := F64.jsRound (F64.mul (F64.ofNat p.length) (F64.lit 75 100))
      outputFormat := "jpeg"
      originalFormat :=
        if file.type = "image/jpeg" ∨ file.type = "image/jpg" then "jpeg"
        else (if file.type = "image/png" then "png" else "other") } := by
  unfold resizeImage
  simp only [hdec]
  split_ifs <;> simp only [hp]

/-! ## Facts about `getCompressionQuality` -/

theorem getCompressionQuality_eq (s : State) :
    getCompressionQuality s =
      (if s.compressionMode = "none" then F64.lit 10 10
       else if s.compressionMode = "manual" then F64.div (F64.ofNat s.quality) (F64.ofNat 100)
       else if s.preset = "high" then F64.lit 90 100
       else if s.preset = "medium" then F64.lit 70 100
       else if s.preset = "low" then F64.lit 50 100
       else F64.lit 70 100) := by
  unfold getCompressionQuality
  split_ifs <;> first | rfl | (split <;> simp_all)

/-- A binary64 value with a non-zero significand that compares `<= 1` lies in `(0, 1]`. -/
theorem F64.unit_of_check (x : F64) (h : 0 < x.man ∧ x.le (F64.ofNat 1) = true) :
    0 < x.toRat ∧ x.toRat ≤ 1 := by
  refine ⟨F64.toRat_pos x h.1, ?_⟩
  have h1 := (F64.le_iff_toRat x (F64.ofNat 1)).mp h.2
  rw [F64.toRat_ofNat 1 (by norm_num)] at h1
  simpa using h1

theorem manual_quality_check : ∀ q : Fin 101, 10 ≤ q.val →
    0 < (F64.div (F64.ofNat q.val) (F64.ofNat 100)).man
      ∧ (F64.div (F64.ofNat q.val) (F64.ofNat 100)).le (F64.ofNat 1) = true := by
  decide

/-! ## Facts about the upload path -/

theorem saveRecentToServer_requests (d : String) (size : Nat) (resp : Fetch RecentBody)
    (t : String) (s : State) :
    (saveRecentToServer d size resp t s).requests = s.requests ++ [Request.postRecent d t size] := by
  unfold saveRecentToServer
  split <;> rfl

theorem saveRecentToServer_processingImage (d : String) (size : Nat) (resp : Fetch RecentBody)
    (t : String) (s : State) :
    (saveRecentToServer d size resp t s).processingImage = s.processingImage := by
  unfold saveRecentToServer
  split <;> rfl

theorem saveRecentToServer_timers (d : String) (size : Nat) (resp : Fetch RecentBody)
    (t : String) (s : State) :
    (saveRecentToServer d size resp t s).timers = s.timers := by
  unfold saveRecentToServer
  split <;> rfl

/-- After a write answered 2xx the placeholder holds the uploaded data URL. -/
theorem uploadToGitHub_ok_processingImage (d : String) (read : Fetch ContentsBody)
    (json : Except String ErrorBody) (save : Fetch RecentBody) (now : Clock) (s : State)
    (ht : effectiveToken s ≠ "") (hr : effectiveRepo s ≠ "") :
    (uploadToGitHub d read (Fetch.response true json) save now s).processingImage
      = some ⟨d, now 1⟩ := by
  unfold uploadToGitHub
  simp only [ht, hr, or_self, if_false]
  cases commaPart1 d with
  | none => rfl
  | some b => simp only [saveRecentToServer_processingImage]

/-- After a write answered 2xx the timers registered are the toast timer and one re-read at
10000 ms, followed by a second toast timer when the size computation throws. -/
theorem uploadToGitHub_ok_timers (d : String) (read : Fetch ContentsBody)
    (json : Except String ErrorBody) (save : Fetch RecentBody) (now : Clock) (s : State)
    (ht : effectiveToken s ≠ "") (hr : effectiveRepo s ≠ "") :
    (uploadToGitHub d read (Fetch.response true json) save now s).timers
      = s.timers ++ [Timer.clearToast 3000]
          ++ [Timer.reload 10000 (effectiveToken s) (effectiveRepo s)]
          ++ (if (commaPart1 d).isSome then [] else [Timer.clearToast 3000]) := by
  unfold uploadToGitHub
  simp only [ht, hr, or_self, if_false]
  cases commaPart1 d with
  | none => rfl
  | some b => simp only [saveRecentToServer_timers]; simp [showToast]

/-- The requests of an upload whose write was answered 2xx: the read, the write carrying
`imageData.split(',')[1]`, and the note to the recent-uploads service with the size. -/
theorem uploadToGitHub_ok_requests (d b : String) (read : Fetch ContentsBody)
    (json : Except String ErrorBody) (save : Fetch RecentBody) (now : Clock) (s : State)
    (ht : effectiveToken s ≠ "") (hr : effectiveRepo s ≠ "") (hb : commaPart1 d = some b) :
    (uploadToGitHub d read (Fetch.response true json) save now s).requests
      = s.requests ++ [Request.getContents (effectiveRepo s) "image1.jpg" (effectiveToken s)]
          ++ [Request.putContents (effectiveRepo s) "image1.jpg" (effectiveToken s)
                ("Update image1.jpg - " ++ now 0) (some b)
                ((readSha read).filter (fun x => x ≠ ""))]
          ++ [Request.postRecent d (now 2)
                (F64.jsRound (F64.mul (F64.ofNat b.length) (F64.lit 75 100)))] := by
  unfold uploadToGitHub
  simp only [ht, hr, or_self, if_false, hb, saveRecentToServer_requests]
  simp [showToast]

/-- After a failed write `uploadToGitHub` has only shown a toast: the placeholder is as
before and the one timer added is the removal of the toast. -/
theorem uploadToGitHub_failed (d : String) (read : Fetch ContentsBody) (write : Fetch ErrorBody)
    (save : Fetch RecentBody) (now : Clock) (s : State) (hf : writeFails s write) :
    (uploadToGitHub d read write save now s).processingImage = s.processingImage
    ∧ (uploadToGitHub d read write save now s).timers = s.timers ++ [Timer.clearToast 3000] := by
  unfold uploadToGitHub
  by_cases hc : effectiveToken s = "" ∨ effectiveRepo s = ""
  · simp only [hc, if_true]
    exact ⟨rfl, rfl⟩
  · simp only [hc, if_false]
    have hw : write.isOk = false := by
      rcases hf with h | h | h
      · exact absurd (Or.inl h) hc
      · exact absurd (Or.inr h) hc
      · exact h
    cases write with
    | networkError msg => exact ⟨rfl, rfl⟩
    | response ok json =>
      have hok : ok = false := hw
      subst hok
      cases json <;> exact ⟨rfl, rfl⟩

/-- The write request of an upload answered 2xx carries `imageData.split(',')[1]`. -/
theorem uploadToGitHub_ok_put (d : String) (read : Fetch ContentsBody)
    (json : Except String ErrorBody) (save : Fetch RecentBody) (now : Clock) (s : State)
    (ht : effectiveToken s ≠ "") (hr : effectiveRepo s ≠ "") :
    Request.putContents (effectiveRepo s) "image1.jpg" (effectiveToken s)
        ("Update image1.jpg - " ++ now 0) (commaPart1 d)
        ((readSha read).filter (fun x => x ≠ ""))
      ∈ (uploadToGitHub d read (Fetch.response true json) save now s).requests := by
  unfold uploadToGitHub
  simp only [ht, hr, or_self, if_false]
  cases commaPart1 d with
  | none => simp [showToast]
  | some b => simp [saveRecentToServer_requests, showToast]

/-- What a re-read does, by outcome: a 2xx answer with a readable body replaces
`currentImage` and clears the placeholder; any other outcome changes neither. -/
theorem loadCurrentImageWith_outcomes (token repo : String) (nowMs : Nat) (s : State) :
    (∀ data : ContentsBody, token ≠ "" → repo ≠ "" →
      (loadCurrentImageWith token repo (Fetch.response true (Except.ok data)) nowMs s).processingImage
          = none
      ∧ (loadCurrentImageWith token repo (Fetch.response true (Except.ok data)) nowMs s).currentImage
          = some ⟨"https://raw.githubusercontent.com/" ++ repo ++ "/main/image1.jpg?t="
              ++ toString nowMs, data.sha, data.size, repo⟩)
    ∧ (∀ resp : Fetch ContentsBody, resp.isOk = false →
      (loadCurrentImageWith token repo resp nowMs s).processingImage = s.processingImage
      ∧ (loadCurrentImageWith token repo resp nowMs s).currentImage = s.currentImage) := by
  constructor
  · intro data ht hr
    constructor <;> simp [loadCurrentImageWith, ht, hr]
  · intro resp hf
    unfold loadCurrentImageWith
    split_ifs
    · exact ⟨rfl, rfl⟩
    · cases resp with
      | networkError msg => exact ⟨rfl, rfl⟩
      | response ok json =>
        have hok : ok = false := hf
        subst hok
        exact ⟨rfl, rfl⟩

theorem sampleEncoder_payload (file : File) (sz : Size) (mime : String) (q : F64) :
    commaPart1 (sampleEncoder file sz mime q) = some "AAAA" := by
  show commaPart1 "data:image/jpeg;base64,AAAA" = some "AAAA"
  decide

/-- After a failed write `confirmUpload` has changed neither the placeholder nor the
re-reads registered. -/
theorem confirmUpload_failed (read : Fetch ContentsBody) (write : Fetch ErrorBody)
    (save : Fetch RecentBody) (now : Clock) (s : State) (hf : writeFails s write) :
    (confirmUpload read write save now s).processingImage = s.processingImage
    ∧ ((confirmUpload read write save now s).timers = s.timers
        ∨ (confirmUpload read write save now s).timers = s.timers ++ [Timer.clearToast 3000]) := by
  unfold confirmUpload
  split
  · exact ⟨rfl, Or.inl rfl⟩
  · rename_i p hprev
    have h := uploadToGitHub_failed p.result.dataUrl read write save now
      { s with uploading := true, progress := 0 } hf
    exact ⟨h.1, Or.inr h.2⟩

/-! ## Rounding error of the binary64 operations -/

namespace F64

theorem ilog2_rat (n : Nat) (h : 0 < n) :
    (2 : ℚ) ^ (ilog2 n : Int) ≤ n ∧ (n : ℚ) < (2 : ℚ) ^ ((ilog2 n : Int) + 1) := by
  obtain ⟨l1, l2⟩ := ilog2_spec n h
  constructor
  · rw [zpow_natCast]; exact_mod_cast l1
  · have e : ((ilog2 n : Int) + 1) = ((ilog2 n + 1 : Nat) : Int) := by push_cast; ring
    rw [e, zpow_natCast]; exact_mod_cast l2

/-- The exponent chosen by `roundExp` puts the scaled quotient into `[2 ^ 52, 2 ^ 53)`. -/
theorem roundExp_spec (a b : Nat) (ha : 0 < a) (hb : 0 < b) :
    (2 : ℚ) ^ (52 : Int) * (2 : ℚ) ^ roundExp a b * b ≤ a
    ∧ (a : ℚ) < (2 : ℚ) ^ (53 : Int) * (2 : ℚ) ^ roundExp a b * b := by
  obtain ⟨A1, A2⟩ := ilog2_rat a ha
  obtain ⟨B1, B2⟩ := ilog2_rat b hb
  have two0 : (2 : ℚ) ≠ 0 := by norm_num
  have bpos : (0 : ℚ) < b := by exact_mod_cast hb
  unfold roundExp
  simp only []
  generalize he0 : (ilog2 a : Int) - (ilog2 b : Int) - 52 = e0
  have Q : (0 : ℚ) < (2 : ℚ) ^ (-e0).toNat := by positivity
  have P : (0 : ℚ) < (2 : ℚ) ^ e0 := by positivity
  have cast_iff : (2 ^ 52 * (b * 2 ^ e0.toNat) ≤ a * 2 ^ (-e0).toNat)
      ↔ ((2 : ℚ) ^ (52 : Int) * (2 : ℚ) ^ e0 * b ≤ a) := by
    have h1 : (2 ^ 52 * (b * 2 ^ e0.toNat) ≤ a * 2 ^ (-e0).toNat)
        ↔ (((2 ^ 52 * (b * 2 ^ e0.toNat) : Nat) : ℚ) ≤ ((a * 2 ^ (-e0).toNat : Nat) : ℚ)) := by
      constructor
      · intro h; exact_mod_cast h
      · intro h; exact_mod_cast h
    have e1 : ((2 ^ 52 * (b * 2 ^ e0.toNat) : Nat) : ℚ)
        = ((2 : ℚ) ^ (52 : Int) * (2 : ℚ) ^ e0 * b) * (2 : ℚ) ^ (-e0).toNat := by
      push_cast
      rw [two_pow_toNat e0]
      norm_num
      ring
    have e2 : ((a * 2 ^ (-e0).toNat : Nat) : ℚ) = (a : ℚ) * (2 : ℚ) ^ (-e0).toNat := by
      push_cast; ring
    rw [h1, e1, e2]
    exact mul_le_mul_right Q
  by_cases hc : 2 ^ 52 * (b * 2 ^ e0.toNat) ≤ a * 2 ^ (-e0).toNat
  · rw [if_pos hc]
    refine ⟨cast_iff.mp hc, ?_⟩
    have e2 : (2 : ℚ) ^ ((ilog2 a : Int) + 1)
        = (2 : ℚ) ^ (53 : Int) * (2 : ℚ) ^ e0 * (2 : ℚ) ^ (ilog2 b : Int) := by
      rw [← zpow_add₀ two0, ← zpow_add₀ two0]
      congr 1
      omega
    calc (a : ℚ) < (2 : ℚ) ^ ((ilog2 a : Int) + 1) := A2
      _ = (2 : ℚ) ^ (53 : Int) * (2 : ℚ) ^ e0 * (2 : ℚ) ^ (ilog2 b : Int) := e2
      _ ≤ (2 : ℚ) ^ (53 : Int) * (2 : ℚ) ^ e0 * b :=
          mul_le_mul_of_nonneg_left B1 (by positivity)
  · rw [if_neg hc]
    have hlt : (a : ℚ) < (2 : ℚ) ^ (52 : Int) * (2 : ℚ) ^ e0 * b := by
      by_contra hge
      exact hc (cast_iff.mpr (not_lt.mp hge))
    have e3 : (2 : ℚ) ^ (53 : Int) * (2 : ℚ) ^ (e0 - 1) = (2 : ℚ) ^ (52 : Int) * (2 : ℚ) ^ e0 := by
      rw [← zpow_add₀ two0, ← zpow_add₀ two0]
      congr 1
      omega
    constructor
    · have e4 : (2 : ℚ) ^ (52 : Int) * (2 : ℚ) ^ (e0 - 1) * (2 : ℚ) ^ ((ilog2 b : Int) + 1)
          = (2 : ℚ) ^ (ilog2 a : Int) := by
        rw [← zpow_add₀ two0, ← zpow_add₀ two0]
        congr 1
        omega
      calc (2 : ℚ) ^ (52 : Int) * (2 : ℚ) ^ (e0 - 1) * b
          ≤ (2 : ℚ) ^ (52 : Int) * (2 : ℚ) ^ (e0 - 1) * (2 : ℚ) ^ ((ilog2 b : Int) + 1) :=
            mul_le_mul_of_nonneg_left B2.le (by positivity)
        _ = (2 : ℚ) ^ (ilog2 a : Int) := e4
        _ ≤ a := A1
    · rw [e3]; exact hlt

/-- The value of a rounded quotient: the rounded significand at the exponent chosen. -/
theorem toRat_round (a b : Nat) (ha : 0 < a) :
    (round a b).toRat
      = (roundSig (a * 2 ^ (-(roundExp a b)).toNat) (b * 2 ^ (roundExp a b).toNat) : ℚ)
        * (2 : ℚ) ^ roundExp a b := by
  have ha0 : a ≠ 0 := by omega
  unfold round
  simp only [ha0, if_false]
  split_ifs with h
  · rw [h]
    unfold toRat
    simp only []
    rw [zpow_add_one₀ (by norm_num : (2 : ℚ) ≠ 0)]
    push_cast
    ring
  · rfl

theorem roundSig_ge (n d N : Nat) (hd : 0 < d) (h : N * d ≤ n) : N ≤ roundSig n d := by
  have hq : N ≤ n / d := (Nat.le_div_iff_mul_le hd).mpr h
  unfold roundSig
  simp only []
  split_ifs <;> omega

theorem roundSig_le (n d N : Nat) (hd : 0 < d) (h : n ≤ N * d) : roundSig n d ≤ N := by
  have hq : n / d ≤ N := by
    calc n / d ≤ N * d / d := Nat.div_le_div_right h
      _ = N := Nat.mul_div_cancel _ hd
  unfold roundSig
  simp only []
  rcases Nat.lt_or_ge (n / d) N with hlt | hge
  · split_ifs <;> omega
  · have hqN : n / d = N := le_antisymm hq hge
    have hmul : d * (n / d) ≤ n := Nat.mul_div_le n d
    have hn : n = N * d := by
      rw [hqN, Nat.mul_comm] at hmul
      omega
    have hr : n % d = 0 := by rw [hn]; exact Nat.mul_mod_left N d
    rw [hr, if_pos (Or.inl (by omega))]
    exact hq

/-- The rounded significand is within one half of the exact quotient. -/
theorem roundSig_near (n d : Nat) (hd : 0 < d) :
    2 * (roundSig n d * d) ≤ 2 * n + d ∧ 2 * n ≤ 2 * (roundSig n d * d) + d := by
  have hdm := Nat.div_add_mod n d
  have hr := Nat.mod_lt n hd
  have hqd : d * (n / d) = n / d * d := Nat.mul_comm _ _
  unfold roundSig
  simp only []
  split_ifs with h
  · constructor
    · omega
    · rcases h with h | ⟨h, _⟩ <;> omega
  · have h2 : d ≤ 2 * (n % d) := by
      by_contra hlt
      exact h (Or.inl (by omega))
    have e : (n / d + 1) * d = n / d * d + d := by ring
    rw [e]
    constructor <;> omega

/-- The scaled operands of `round`, as rationals: numerator `a * p` and denominator
`b * 2 ^ e * p` for the positive factor `p = 2 ^ (-e).toNat`. -/
theorem scaled_cast (a b : Nat) (e : Int) :
    ((a * 2 ^ (-e).toNat : Nat) : ℚ) = (a : ℚ) * (2 : ℚ) ^ (-e).toNat
    ∧ ((b * 2 ^ e.toNat : Nat) : ℚ) = (b : ℚ) * (2 : ℚ) ^ e * (2 : ℚ) ^ (-e).toNat := by
  constructor
  · push_cast; ring
  · push_cast; rw [two_pow_toNat e]; ring

/-- Rounding a quotient changes it by at most the relative error `2 ^ (-53)`. -/
theorem round_near (a b : Nat) (ha : 0 < a) (hb : 0 < b) :
    (a : ℚ) * (1 - (2 : ℚ) ^ (-53 : Int)) ≤ (round a b).toRat * b
    ∧ (round a b).toRat * b ≤ (a : ℚ) * (1 + (2 : ℚ) ^ (-53 : Int)) := by
  obtain ⟨L, _⟩ := roundExp_spec a b ha hb
  rw [toRat_round a b ha]
  generalize roundExp a b = e at L ⊢
  have hd : 0 < b * 2 ^ e.toNat := by positivity
  obtain ⟨N1, N2⟩ := roundSig_near (a * 2 ^ (-e).toNat) (b * 2 ^ e.toNat) hd
  obtain ⟨c1, c2⟩ := scaled_cast a b e
  generalize roundSig (a * 2 ^ (-e).toNat) (b * 2 ^ e.toNat) = m at N1 N2 ⊢
  have Q : (0 : ℚ) < (2 : ℚ) ^ (-e).toNat := by positivity
  have N1q : (2 : ℚ) * ((m : ℚ) * ((b : ℚ) * (2 : ℚ) ^ e * (2 : ℚ) ^ (-e).toNat))
      ≤ 2 * ((a : ℚ) * (2 : ℚ) ^ (-e).toNat) + (b : ℚ) * (2 : ℚ) ^ e * (2 : ℚ) ^ (-e).toNat := by
    rw [← c1, ← c2]; exact_mod_cast N1
  have N2q : (2 : ℚ) * ((a : ℚ) * (2 : ℚ) ^ (-e).toNat)
      ≤ 2 * ((m : ℚ) * ((b : ℚ) * (2 : ℚ) ^ e * (2 : ℚ) ^ (-e).toNat))
        + (b : ℚ) * (2 : ℚ) ^ e * (2 : ℚ) ^ (-e).toNat := by
    rw [← c1, ← c2]; exact_mod_cast N2
  have M1 : (2 : ℚ) * ((m : ℚ) * (2 : ℚ) ^ e * b) ≤ 2 * a + (2 : ℚ) ^ e * b := by
    apply le_of_mul_le_mul_right _ Q
    calc (2 : ℚ) * ((m : ℚ) * (2 : ℚ) ^ e * b) * (2 : ℚ) ^ (-e).toNat
        = 2 * ((m : ℚ) * ((b : ℚ) * (2 : ℚ) ^ e * (2 : ℚ) ^ (-e).toNat)) := by ring
      _ ≤ _ := N1q
      _ = (2 * a + (2 : ℚ) ^ e * b) * (2 : ℚ) ^ (-e).toNat := by ring
  have M2 : (2 : ℚ) * a ≤ 2 * ((m : ℚ) * (2 : ℚ) ^ e * b) + (2 : ℚ) ^ e * b := by
    apply le_of_mul_le_mul_right _ Q
    calc (2 : ℚ) * a * (2 : ℚ) ^ (-e).toNat
        = 2 * ((a : ℚ) * (2 : ℚ) ^ (-e).toNat) := by ring
      _ ≤ _ := N2q
      _ = (2 * ((m : ℚ) * (2 : ℚ) ^ e * b) + (2 : ℚ) ^ e * b) * (2 : ℚ) ^ (-e).toNat := by ring
  have L2 : (2 : ℚ) ^ e * b ≤ (a : ℚ) * (2 * (2 : ℚ) ^ (-53 : Int)) := by
    have e52 : (2 : ℚ) ^ (52 : Int) * (2 * (2 : ℚ) ^ (-53 : Int)) = 1 := by norm_num
    calc (2 : ℚ) ^ e * b = ((2 : ℚ) ^ (52 : Int) * (2 : ℚ) ^ e * b) * (2 * (2 : ℚ) ^ (-53 : Int)) := by
          rw [mul_assoc ((2 : ℚ) ^ (52 : Int)), mul_comm ((2 : ℚ) ^ (52 : Int)), mul_assoc, e52,
            mul_one]
      _ ≤ (a : ℚ) * (2 * (2 : ℚ) ^ (-53 : Int)) :=
          mul_le_mul_of_nonneg_right L (by positivity)
  constructor <;> linarith

/-- A quotient that is at least one rounds to a value that is at least one. -/
theorem round_ge_one (a b : Nat) (ha : 0 < a) (hb : 0 < b) (h : b ≤ a) :
    1 ≤ (round a b).toRat := by
  obtain ⟨L, U⟩ := roundExp_spec a b ha hb
  rw [toRat_round a b ha]
  generalize roundExp a b = e at L U ⊢
  have two0 : (2 : ℚ) ≠ 0 := by norm_num
  have hd : 0 < b * 2 ^ e.toNat := by positivity
  obtain ⟨c1, c2⟩ := scaled_cast a b e
  have Q : (0 : ℚ) < (2 : ℚ) ^ (-e).toNat := by positivity
  have bpos : (0 : ℚ) < b := by exact_mod_cast hb
  have hN : 2 ^ 52 * (b * 2 ^ e.toNat) ≤ a * 2 ^ (-e).toNat := by
    have hq : ((2 ^ 52 * (b * 2 ^ e.toNat) : Nat) : ℚ) ≤ ((a * 2 ^ (-e).toNat : Nat) : ℚ) := by
      rw [Nat.cast_mul, c1, c2]
      have e0 : ((2 ^ 52 : Nat) : ℚ) = (2 : ℚ) ^ (52 : Int) := by norm_num
      rw [e0]
      calc (2 : ℚ) ^ (52 : Int) * ((b : ℚ) * (2 : ℚ) ^ e * (2 : ℚ) ^ (-e).toNat)
          = ((2 : ℚ) ^ (52 : Int) * (2 : ℚ) ^ e * b) * (2 : ℚ) ^ (-e).toNat := by ring
        _ ≤ (a : ℚ) * (2 : ℚ) ^ (-e).toNat := mul_le_mul_of_nonneg_right L Q.le
    exact_mod_cast hq
  have hm := roundSig_ge _ _ (2 ^ 52) hd hN
  generalize roundSig (a * 2 ^ (-e).toNat) (b * 2 ^ e.toNat) = m at hm ⊢
  have hmq : (2 : ℚ) ^ (52 : Int) ≤ m := by
    have : ((2 ^ 52 : Nat) : ℚ) ≤ m := by exact_mod_cast hm
    norm_num at this ⊢
    exact this
  have he : 0 < 53 + e := by
    have hba : (b : ℚ) ≤ a := by exact_mod_cast h
    have h1 : (1 : ℚ) * b < (2 : ℚ) ^ (53 : Int) * (2 : ℚ) ^ e * b := by
      rw [one_mul]; exact lt_of_le_of_lt hba U
    have h2 : (1 : ℚ) < (2 : ℚ) ^ (53 : Int) * (2 : ℚ) ^ e := lt_of_mul_lt_mul_right h1 bpos.le
    rw [← zpow_add₀ two0, ← zpow_zero (2 : ℚ)] at h2
    exact (zpow_lt_zpow_iff_right₀ (by norm_num)).mp h2
  have h3 : (1 : ℚ) ≤ (2 : ℚ) ^ (52 : Int) * (2 : ℚ) ^ e := by
    rw [← zpow_add₀ two0]
    have : (2 : ℚ) ^ (0 : Int) ≤ (2 : ℚ) ^ (52 + e) :=
      zpow_le_zpow_right₀ (by norm_num) (by omega)
    simpa using this
  calc (1 : ℚ) ≤ (2 : ℚ) ^ (52 : Int) * (2 : ℚ) ^ e := h3
    _ ≤ (m : ℚ) * (2 : ℚ) ^ e := mul_le_mul_of_nonneg_right hmq (by positivity)

/-- A quotient that is at most `1 - 2 ^ (-53)` rounds to a value below one. -/
theorem round_lt_one (a b : Nat) (ha : 0 < a) (hb : 0 < b)
    (h : (a : ℚ) ≤ (1 - (2 : ℚ) ^ (-53 : Int)) * b) : (round a b).toRat < 1 := by
  obtain ⟨L, _⟩ := roundExp_spec a b ha hb
  rw [toRat_round a b ha]
  generalize roundExp a b = e at L ⊢
  have two0 : (2 : ℚ) ≠ 0 := by norm_num
  have hd : 0 < b * 2 ^ e.toNat := by positivity
  obtain ⟨c1, c2⟩ := scaled_cast a b e
  have Q : (0 : ℚ) < (2 : ℚ) ^ (-e).toNat := by positivity
  have bpos : (0 : ℚ) < b := by exact_mod_cast hb
  have he : 52 + e < 0 := by
    have h1 : (2 : ℚ) ^ (52 : Int) * (2 : ℚ) ^ e * b < 1 * b := by
      have hlt : (1 - (2 : ℚ) ^ (-53 : Int)) * b < 1 * b :=
        mul_lt_mul_of_pos_right (by norm_num) bpos
      exact lt_of_le_of_lt (le_trans L h) hlt
    have h2 : (2 : ℚ) ^ (52 : Int) * (2 : ℚ) ^ e < 1 := lt_of_mul_lt_mul_right h1 bpos.le
    rw [← zpow_add₀ two0, ← zpow_zero (2 : ℚ)] at h2
    exact (zpow_lt_zpow_iff_right₀ (by norm_num)).mp h2
  obtain ⟨k, hk⟩ : ∃ k : Nat, (k : Int) = -53 - e := ⟨(-53 - e).toNat, by omega⟩
  have hke : (2 : ℚ) ^ k * (2 : ℚ) ^ e = (2 : ℚ) ^ (-53 : Int) := by
    rw [← zpow_natCast, hk, ← zpow_add₀ two0]
    congr 1
    omega
  have hN : a * 2 ^ (-e).toNat ≤ (9007199254740991 * 2 ^ k) * (b * 2 ^ e.toNat) := by
    have hq : ((a * 2 ^ (-e).toNat : Nat) : ℚ)
        ≤ (((9007199254740991 * 2 ^ k) * (b * 2 ^ e.toNat) : Nat) : ℚ) := by
      rw [Nat.cast_mul (9007199254740991 * 2 ^ k), c1, c2]
      push_cast
      calc (a : ℚ) * (2 : ℚ) ^ (-e).toNat
          ≤ ((1 - (2 : ℚ) ^ (-53 : Int)) * b) * (2 : ℚ) ^ (-e).toNat :=
            mul_le_mul_of_nonneg_right h Q.le
        _ = 9007199254740991 * ((2 : ℚ) ^ k * (2 : ℚ) ^ e) * b * (2 : ℚ) ^ (-e).toNat := by
            rw [hke]; norm_num
        _ = 9007199254740991 * (2 : ℚ) ^ k * ((b : ℚ) * (2 : ℚ) ^ e * (2 : ℚ) ^ (-e).toNat) := by
            ring
    exact_mod_cast hq
  have hm := roundSig_le _ _ (9007199254740991 * 2 ^ k) hd hN
  generalize roundSig (a * 2 ^ (-e).toNat) (b * 2 ^ e.toNat) = m at hm ⊢
  have hmq : (m : ℚ) ≤ 9007199254740991 * (2 : ℚ) ^ k := by exact_mod_cast hm
  calc (m : ℚ) * (2 : ℚ) ^ e ≤ 9007199254740991 * (2 : ℚ) ^ k * (2 : ℚ) ^ e :=
        mul_le_mul_of_nonneg_right hmq (by positivity)
    _ = 9007199254740991 * ((2 : ℚ) ^ k * (2 : ℚ) ^ e) := by ring
    _ < 1 := by rw [hke]; norm_num

/-- `Math.floor` is the floor of the value. -/
theorem floor_eq_floor (x : F64) : floor x = ⌊x.toRat⌋₊ := by
  unfold floor
  have hv : x.toRat
      = ((x.man * 2 ^ x.exp.toNat : Nat) : ℚ) / ((2 ^ (-x.exp).toNat : Nat) : ℚ) := by
    unfold toRat
    push_cast
    rw [two_pow_toNat x.exp]
    have : ((2 : ℚ) ^ (-x.exp).toNat) ≠ 0 := by positivity
    field_simp
    ring
  rw [hv, Nat.floor_div_eq_div]

theorem floor_pos (x : F64) (h : 1 ≤ x.toRat) : 1 ≤ floor x := by
  rw [floor_eq_floor]
  exact Nat.le_floor (by simpa using h)

theorem floor_zero (x : F64) (h : x.toRat < 1) : floor x = 0 := by
  rw [floor_eq_floor]
  exact Nat.floor_eq_zero.mpr h

theorem man_pos_of_toRat_pos (x : F64) (h : 0 < x.toRat) : 0 < x.man := by
  rcases Nat.eq_zero_or_pos x.man with h0 | h0
  · unfold toRat at h
    rw [h0] at h
    simp at h
  · exact h0

/-- Division is exact up to the relative error `2 ^ (-53)`. -/
theorem div_near (x y : F64) (hx : 0 < x.man) (hy : 0 < y.man) :
    x.toRat * (1 - (2 : ℚ) ^ (-53 : Int)) ≤ (div x y).toRat * y.toRat
    ∧ (div x y).toRat * y.toRat ≤ x.toRat * (1 + (2 : ℚ) ^ (-53 : Int)) := by
  have two0 : (2 : ℚ) ≠ 0 := by norm_num
  have ha : 0 < x.man * 2 ^ (x.exp - y.exp).toNat := by positivity
  have hb : 0 < y.man * 2 ^ (y.exp - x.exp).toNat := by positivity
  obtain ⟨l, u⟩ := round_near _ _ ha hb
  have Q : (0 : ℚ) < (2 : ℚ) ^ (y.exp - x.exp).toNat := by positivity
  have Py : (0 : ℚ) < (2 : ℚ) ^ y.exp := by positivity
  have en : -(x.exp - y.exp) = y.exp - x.exp := by ring
  have ca : ((x.man * 2 ^ (x.exp - y.exp).toNat : Nat) : ℚ) * (2 : ℚ) ^ y.exp
      = x.toRat * (2 : ℚ) ^ (y.exp - x.exp).toNat := by
    unfold toRat
    push_cast
    rw [two_pow_toNat (x.exp - y.exp), en, zpow_sub₀ two0]
    field_simp
    ring
  have cb : ((y.man * 2 ^ (y.exp - x.exp).toNat : Nat) : ℚ) * (2 : ℚ) ^ y.exp
      = y.toRat * (2 : ℚ) ^ (y.exp - x.exp).toNat := by
    unfold toRat
    push_cast
    ring
  unfold div
  generalize (round (x.man * 2 ^ (x.exp - y.exp).toNat)
    (y.man * 2 ^ (y.exp - x.exp).toNat)).toRat = v at l u ⊢
  constructor
  · apply le_of_mul_le_mul_right _ Q
    calc x.toRat * (1 - (2 : ℚ) ^ (-53 : Int)) * (2 : ℚ) ^ (y.exp - x.exp).toNat
        = ((x.man * 2 ^ (x.exp - y.exp).toNat : Nat) : ℚ) * (2 : ℚ) ^ y.exp
            * (1 - (2 : ℚ) ^ (-53 : Int)) := by rw [ca]; ring
      _ = ((x.man * 2 ^ (x.exp - y.exp).toNat : Nat) : ℚ) * (1 - (2 : ℚ) ^ (-53 : Int))
            * (2 : ℚ) ^ y.exp := by ring
      _ ≤ v * ((y.man * 2 ^ (y.exp - x.exp).toNat : Nat) : ℚ) * (2 : ℚ) ^ y.exp :=
          mul_le_mul_of_nonneg_right l Py.le
      _ = v * (((y.man * 2 ^ (y.exp - x.exp).toNat : Nat) : ℚ) * (2 : ℚ) ^ y.exp) := by ring
      _ = v * y.toRat * (2 : ℚ) ^ (y.exp - x.exp).toNat := by rw [cb]; ring
  · apply le_of_mul_le_mul_right _ Q
    calc v * y.toRat * (2 : ℚ) ^ (y.exp - x.exp).toNat
        = v * (((y.man * 2 ^ (y.exp - x.exp).toNat : Nat) : ℚ) * (2 : ℚ) ^ y.exp) := by
          rw [cb]; ring
      _ = v * ((y.man * 2 ^ (y.exp - x.exp).toNat : Nat) : ℚ) * (2 : ℚ) ^ y.exp := by ring
      _ ≤ ((x.man * 2 ^ (x.exp - y.exp).toNat : Nat) : ℚ) * (1 + (2 : ℚ) ^ (-53 : Int))
            * (2 : ℚ) ^ y.exp := mul_le_mul_of_nonneg_right u Py.le
      _ = ((x.man * 2 ^ (x.exp - y.exp).toNat : Nat) : ℚ) * (2 : ℚ) ^ y.exp
            * (1 + (2 : ℚ) ^ (-53 : Int)) := by ring
      _ = x.toRat * (1 + (2 : ℚ) ^ (-53 : Int)) * (2 : ℚ) ^ (y.exp - x.exp).toNat := by
          rw [ca]; ring

/-- The operands that `mul` hands to `round` stand for the exact product. -/
theorem mul_operands (x y : F64) :
    ((x.man * y.man * 2 ^ (x.exp + y.exp).toNat : Nat) : ℚ)
      = x.toRat * y.toRat * ((2 ^ (-(x.exp + y.exp)).toNat : Nat) : ℚ) := by
  unfold toRat
  push_cast
  rw [two_pow_toNat (x.exp + y.exp), zpow_add₀ (by norm_num : (2 : ℚ) ≠ 0)]
  ring

/-- A product that is at least one rounds to a value that is at least one. -/
theorem mul_ge_one (x y : F64) (h : 1 ≤ x.toRat * y.toRat) : 1 ≤ (mul x y).toRat := by
  have hop := mul_operands x y
  have hb : 0 < 2 ^ (-(x.exp + y.exp)).toNat := by positivity
  have hbq : (0 : ℚ) < ((2 ^ (-(x.exp + y.exp)).toNat : Nat) : ℚ) := by exact_mod_cast hb
  have hle : 2 ^ (-(x.exp + y.exp)).toNat ≤ x.man * y.man * 2 ^ (x.exp + y.exp).toNat := by
    have hq : ((2 ^ (-(x.exp + y.exp)).toNat : Nat) : ℚ)
        ≤ ((x.man * y.man * 2 ^ (x.exp + y.exp).toNat : Nat) : ℚ) := by
      rw [hop]
      calc ((2 ^ (-(x.exp + y.exp)).toNat : Nat) : ℚ)
          = 1 * ((2 ^ (-(x.exp + y.exp)).toNat : Nat) : ℚ) := (one_mul _).symm
        _ ≤ _ := mul_le_mul_of_nonneg_right h hbq.le
    exact_mod_cast hq
  unfold mul
  exact round_ge_one _ _ (lt_of_lt_of_le hb hle) hb hle

/-- A product that is at most `1 - 2 ^ (-53)` rounds to a value below one. -/
theorem mul_lt_one (x y : F64) (h : x.toRat * y.toRat ≤ 1 - (2 : ℚ) ^ (-53 : Int)) :
    (mul x y).toRat < 1 := by
  have hop := mul_operands x y
  have hb : 0 < 2 ^ (-(x.exp + y.exp)).toNat := by positivity
  have hbq : (0 : ℚ) < ((2 ^ (-(x.exp + y.exp)).toNat : Nat) : ℚ) := by exact_mod_cast hb
  unfold mul
  rcases Nat.eq_zero_or_pos (x.man * y.man * 2 ^ (x.exp + y.exp).toNat) with h0 | h0
  · rw [h0, toRat_round_zero]; norm_num
  · apply round_lt_one _ _ h0 hb
    rw [hop]
    exact mul_le_mul_of_nonneg_right h hbq.le

theorem min_cases (x y : F64) :
    (min x y = x ∨ min x y = y) ∧ (min x y).toRat ≤ x.toRat ∧ (min x y).toRat ≤ y.toRat := by
  by_cases h : x.le y = true
  · have e : min x y = x := by unfold min; rw [if_pos h]
    rw [e]
    exact ⟨Or.inl rfl, le_refl _, (le_iff_toRat x y).mp h⟩
  · have e : min x y = y := by unfold min; rw [if_neg h]
    rw [e]
    have h2 : ¬ x.toRat ≤ y.toRat := fun hle => h ((le_iff_toRat x y).mpr hle)
    exact ⟨Or.inr rfl, (not_le.mp h2).le, le_refl _⟩

end F64

/-! ## Facts about the target size -/

/-- The ratio of `targetSize` is one of the two rounded quotients, and on each axis it is
`2048 / side` up to the relative error `2 ^ (-53)` from above. -/
theorem ratio_bounds (w h : Nat) (hw : 0 < w) (hh : 0 < h) (hwb : w < 2 ^ 53)
    (hhb : h < 2 ^ 53) :
    (2048 * (1 - (2 : ℚ) ^ (-53 : Int))
        ≤ (F64.min (F64.div (F64.ofNat 2048) (F64.ofNat w))
            (F64.div (F64.ofNat 2048) (F64.ofNat h))).toRat * w
      ∨ 2048 * (1 - (2 : ℚ) ^ (-53 : Int))
        ≤ (F64.min (F64.div (F64.ofNat 2048) (F64.ofNat w))
            (F64.div (F64.ofNat 2048) (F64.ofNat h))).toRat * h)
    ∧ (F64.min (F64.div (F64.ofNat 2048) (F64.ofNat w))
          (F64.div (F64.ofNat 2048) (F64.ofNat h))).toRat * w
        ≤ 2048 * (1 + (2 : ℚ) ^ (-53 : Int))
    ∧ (F64.min (F64.div (F64.ofNat 2048) (F64.ofNat w))
          (F64.div (F64.ofNat 2048) (F64.ofNat h))).toRat * h
        ≤ 2048 * (1 + (2 : ℚ) ^ (-53 : Int)) := by
  have hc : (F64.ofNat 2048).toRat = 2048 := by
    have := F64.toRat_ofNat 2048 (by norm_num)
    simpa using this
  have hW : (F64.ofNat w).toRat = w := F64.toRat_ofNat w hwb
  have hH : (F64.ofNat h).toRat = h := F64.toRat_ofNat h hhb
  have wq : (0 : ℚ) < w := by exact_mod_cast hw
  have hq : (0 : ℚ) < h := by exact_mod_cast hh
  have mc : 0 < (F64.ofNat 2048).man := F64.man_pos_of_toRat_pos _ (by rw [hc]; norm_num)
  have mW : 0 < (F64.ofNat w).man := F64.man_pos_of_toRat_pos _ (by rw [hW]; exact wq)
  have mH : 0 < (F64.ofNat h).man := F64.man_pos_of_toRat_pos _ (by rw [hH]; exact hq)
  obtain ⟨lw, uw⟩ := F64.div_near (F64.ofNat 2048) (F64.ofNat w) mc mW
  obtain ⟨lh, uh⟩ := F64.div_near (F64.ofNat 2048) (F64.ofNat h) mc mH
  rw [hc, hW] at lw uw
  rw [hc, hH] at lh uh
  obtain ⟨hcase, m1, m2⟩ := F64.min_cases (F64.div (F64.ofNat 2048) (F64.ofNat w))
    (F64.div (F64.ofNat 2048) (F64.ofNat h))
  refine ⟨?_, ?_, ?_⟩
  · rcases hcase with e | e
    · left; rw [e]; exact lw
    · right; rw [e]; exact lh
  · exact le_trans (mul_le_mul_of_nonneg_right m1 wq.le) uw
  · exact le_trans (mul_le_mul_of_nonneg_right m2 hq.le) uh

/-- A side `t` with `u < 2048 t` keeps at least one pixel under a ratio that is at least
`2048 / u` up to rounding. -/
theorem scaled_side_pos (r : F64) (t u : Nat) (hu : 0 < u) (hub : u < 2 ^ 53)
    (htb : t < 2 ^ 53) (hr : 2048 * (1 - (2 : ℚ) ^ (-53 : Int)) ≤ r.toRat * u)
    (htu : u + 1 ≤ 2048 * t) : 1 ≤ F64.floor (F64.mul (F64.ofNat t) r) := by
  apply F64.floor_pos
  apply F64.mul_ge_one
  rw [F64.toRat_ofNat t htb]
  have uq : (0 : ℚ) < u := by exact_mod_cast hu
  have tq : (0 : ℚ) ≤ t := by exact_mod_cast Nat.zero_le t
  have hub' : (u : ℚ) + 1 ≤ 9007199254740992 := by
    have : u + 1 ≤ 2 ^ 53 := hub
    exact_mod_cast this
  have htu' : (u : ℚ) + 1 ≤ 2048 * t := by exact_mod_cast htu
  have he : (2 : ℚ) ^ (-53 : Int) = 1 / 9007199254740992 := by norm_num
  rw [he] at hr
  have h1 : 2048 * (1 - 1 / 9007199254740992) * (t : ℚ) ≤ r.toRat * u * t :=
    mul_le_mul_of_nonneg_right hr tq
  have h2 : (1 : ℚ) * u ≤ (t : ℚ) * r.toRat * u := by
    have e : (t : ℚ) * r.toRat * u = r.toRat * u * t := by ring
    rw [e]
    linarith
  exact le_of_mul_le_mul_right h2 uq

/-- A side `t` with `2048 t < u` is scaled to zero pixels under a ratio that is at most
`2048 / u` up to rounding. -/
theorem scaled_side_zero (r : F64) (t u : Nat) (hub : u ≤ 2 ^ 52) (htb : t < 2 ^ 53)
    (hr : r.toRat * u ≤ 2048 * (1 + (2 : ℚ) ^ (-53 : Int)))
    (htu : 2048 * t + 1 ≤ u) : F64.floor (F64.mul (F64.ofNat t) r) = 0 := by
  apply F64.floor_zero
  apply F64.mul_lt_one
  rw [F64.toRat_ofNat t htb]
  have hu : 0 < u := by omega
  have uq : (0 : ℚ) < u := by exact_mod_cast hu
  have tq : (0 : ℚ) ≤ t := by exact_mod_cast Nat.zero_le t
  have hub' : (u : ℚ) ≤ 4503599627370496 := by exact_mod_cast hub
  have htu' : 2048 * (t : ℚ) + 1 ≤ u := by exact_mod_cast htu
  have he : (2 : ℚ) ^ (-53 : Int) = 1 / 9007199254740992 := by norm_num
  rw [he] at hr ⊢
  have h1 : r.toRat * u * t ≤ 2048 * (1 + 1 / 9007199254740992) * (t : ℚ) :=
    mul_le_mul_of_nonneg_right hr tq
  have h2 : (t : ℚ) * r.toRat * u ≤ (1 - 1 / 9007199254740992) * u := by
    have e : (t : ℚ) * r.toRat * u = r.toRat * u * t := by ring
    rw [e]
    linarith
  exact le_of_mul_le_mul_right h2 uq

/-- Off the boundary `2048 * min = max`, with sides below `2 ^ 32`: both target sides are at
least one when the image is not resized or `2048 * min > max`. -/
theorem targetSize_pos (w h : Nat) (hw : 0 < w) (hh : 0 < h) (hwb : w < 2 ^ 32)
    (hhb : h < 2 ^ 32) (hc : max w h ≤ 2048 ∨ max w h < 2048 * min w h) :
    1 ≤ (targetSize ⟨w, h⟩).width ∧ 1 ≤ (targetSize ⟨w, h⟩).height := by
  unfold targetSize
  by_cases hbig : w > 2048 ∨ h > 2048
  · simp only [hbig, if_true]
    have hlt : max w h < 2048 * min w h := by
      rcases hc with hc | hc
      · omega
      · exact hc
    obtain ⟨hlow, _, _⟩ := ratio_bounds w h hw hh (by omega) (by omega)
    constructor
    · rcases hlow with hr | hr
      · exact scaled_side_pos _ w w hw (by omega) (by omega) hr (by omega)
      · exact scaled_side_pos _ w h hh (by omega) (by omega) hr (by omega)
    · rcases hlow with hr | hr
      · exact scaled_side_pos _ h w hw (by omega) (by omega) hr (by omega)
      · exact scaled_side_pos _ h h hh (by omega) (by omega) hr (by omega)
  · simp only [hbig, if_false]
    exact ⟨hw, hh⟩

/-- With sides below `2 ^ 32`: when the image is resized and `2048 * min < max`, the
shorter side is scaled to zero. -/
theorem targetSize_zero (w h : Nat) (hw : 0 < w) (hh : 0 < h) (hwb : w < 2 ^ 32)
    (hhb : h < 2 ^ 32) (hbig : 2048 < max w h) (hc : 2048 * min w h < max w h) :
    (w ≤ h → (targetSize ⟨w, h⟩).width = 0) ∧ (h ≤ w → (targetSize ⟨w, h⟩).height = 0) := by
  have hcond : w > 2048 ∨ h > 2048 := by omega
  obtain ⟨_, uw, uh⟩ := ratio_bounds w h hw hh (by omega) (by omega)
  unfold targetSize
  simp only [hcond, if_true]
  constructor
  · intro hle
    exact scaled_side_zero _ w h (by omega) (by omega) uh (by omega)
  · intro hle
    exact scaled_side_zero _ h w (by omega) (by omega) uw (by omega)

/-! ## The target size against the exact formula -/

/-- The formula of the specification, evaluated: the long side becomes 2048 and the other
one `⌊2048 * side / max⌋`. -/
theorem specTargetSize_eq (w h : Nat) (hw : 0 < w) (hh : 0 < h) :
    specTargetSize ⟨w, h⟩
      = if w > 2048 ∨ h > 2048 then ⟨2048 * w / max w h, 2048 * h / max w h⟩ else ⟨w, h⟩ := by
  have wq : (0 : ℚ) < w := by exact_mod_cast hw
  have hq : (0 : ℚ) < h := by exact_mod_cast hh
  have hmin : min (2048 / (w : ℚ)) (2048 / (h : ℚ)) = 2048 / ((max w h : Nat) : ℚ) := by
    rcases Nat.le_total w h with hle | hle
    · have hle' : (w : ℚ) ≤ h := by exact_mod_cast hle
      rw [max_eq_right hle, min_eq_right]
      exact div_le_div_of_nonneg_left (by norm_num) wq hle'
    · have hle' : (h : ℚ) ≤ w := by exact_mod_cast hle
      rw [max_eq_left hle, min_eq_left]
      exact div_le_div_of_nonneg_left (by norm_num) hq hle'
  have hside : ∀ t : Nat, ⌊(t : ℚ) * (2048 / ((max w h : Nat) : ℚ))⌋₊ = 2048 * t / max w h := by
    intro t
    have e : (t : ℚ) * (2048 / ((max w h : Nat) : ℚ))
        = ((2048 * t : Nat) : ℚ) / ((max w h : Nat) : ℚ) := by
      push_cast; ring
    rw [e, Nat.floor_div_eq_div]
  unfold specTargetSize
  simp only [hmin, hside]

namespace F64

/-- Multiplication is exact up to the relative error `2 ^ (-53)`. -/
theorem mul_near (x y : F64) :
    x.toRat * y.toRat * (1 - (2 : ℚ) ^ (-53 : Int)) ≤ (mul x y).toRat
    ∧ (mul x y).toRat ≤ x.toRat * y.toRat * (1 + (2 : ℚ) ^ (-53 : Int)) := by
  have hop := mul_operands x y
  have hb : 0 < 2 ^ (-(x.exp + y.exp)).toNat := by positivity
  have hbq : (0 : ℚ) < ((2 ^ (-(x.exp + y.exp)).toNat : Nat) : ℚ) := by exact_mod_cast hb
  unfold mul
  rcases Nat.eq_zero_or_pos (x.man * y.man * 2 ^ (x.exp + y.exp).toNat) with h0 | h0
  · have hz : x.toRat * y.toRat = 0 := by
      have h1 : x.toRat * y.toRat * ((2 ^ (-(x.exp + y.exp)).toNat : Nat) : ℚ) = 0 := by
        rw [← hop, h0]; simp
      rcases mul_eq_zero.mp h1 with h2 | h2
      · exact h2
      · exact absurd h2 hbq.ne'
    rw [h0, toRat_round_zero, hz]
    simp
  · obtain ⟨l, u⟩ := round_near _ _ h0 hb
    rw [hop] at l u
    constructor
    · apply le_of_mul_le_mul_right _ hbq
      calc x.toRat * y.toRat * (1 - (2 : ℚ) ^ (-53 : Int))
            * ((2 ^ (-(x.exp + y.exp)).toNat : Nat) : ℚ)
          = x.toRat * y.toRat * ((2 ^ (-(x.exp + y.exp)).toNat : Nat) : ℚ)
            * (1 - (2 : ℚ) ^ (-53 : Int)) := by ring
        _ ≤ _ := l
    · apply le_of_mul_le_mul_right _ hbq
      calc _ ≤ x.toRat * y.toRat * ((2 ^ (-(x.exp + y.exp)).toNat : Nat) : ℚ)
            * (1 + (2 : ℚ) ^ (-53 : Int)) := u
        _ = x.toRat * y.toRat * (1 + (2 : ℚ) ^ (-53 : Int))
            * ((2 ^ (-(x.exp + y.exp)).toNat : Nat) : ℚ) := by ring

theorem toRat_nonneg (x : F64) : 0 ≤ x.toRat := by
  unfold toRat
  positivity

end F64

/-- On the long side the ratio of `targetSize` is `2048 / max` up to the relative error
`2 ^ (-53)`. -/
theorem ratio_max_bounds (w h : Nat) (hw : 0 < w) (hh : 0 < h) (hwb : w < 2 ^ 53)
    (hhb : h < 2 ^ 53) :
    2048 * (1 - (2 : ℚ) ^ (-53 : Int))
        ≤ (F64.min (F64.div (F64.ofNat 2048) (F64.ofNat w))
            (F64.div (F64.ofNat 2048) (F64.ofNat h))).toRat * ((max w h : Nat) : ℚ)
    ∧ (F64.min (F64.div (F64.ofNat 2048) (F64.ofNat w))
          (F64.div (F64.ofNat 2048) (F64.ofNat h))).toRat * ((max w h : Nat) : ℚ)
        ≤ 2048 * (1 + (2 : ℚ) ^ (-53 : Int)) := by
  obtain ⟨hlow, uw, uh⟩ := ratio_bounds w h hw hh hwb hhb
  have hr := F64.toRat_nonneg (F64.min (F64.div (F64.ofNat 2048) (F64.ofNat w))
    (F64.div (F64.ofNat 2048) (F64.ofNat h)))
  have mw : (w : ℚ) ≤ ((max w h : Nat) : ℚ) := by exact_mod_cast Nat.le_max_left w h
  have mh : (h : ℚ) ≤ ((max w h : Nat) : ℚ) := by exact_mod_cast Nat.le_max_right w h
  constructor
  · rcases hlow with hl | hl
    · exact le_trans hl (mul_le_mul_of_nonneg_left mw hr)
    · exact le_trans hl (mul_le_mul_of_nonneg_left mh hr)
  · rcases Nat.le_total w h with hle | hle
    · rw [max_eq_right hle]; exact uh
    · rw [max_eq_left hle]; exact uw

/-- A side `t` under a ratio that is `2048 / m` up to rounding: the number of pixels
computed is `⌊2048 t / m⌋` or one less, and it is `⌊2048 t / m⌋` when the quotient is not
an integer. -/
theorem scaled_side_floor (r : F64) (t m : Nat) (ht : t ≤ m) (hmb : m < 2 ^ 32)
    (hl : 2048 * (1 - (2 : ℚ) ^ (-53 : Int)) ≤ r.toRat * (m : ℚ))
    (hu : r.toRat * (m : ℚ) ≤ 2048 * (1 + (2 : ℚ) ^ (-53 : Int))) :
    F64.floor (F64.mul (F64.ofNat t) r) ≤ 2048 * t / m
    ∧ 2048 * t / m ≤ F64.floor (F64.mul (F64.ofNat t) r) + 1
    ∧ (2048 * t % m ≠ 0 → F64.floor (F64.mul (F64.ofNat t) r) = 2048 * t / m) := by
  have he : (2 : ℚ) ^ (-53 : Int) = 1 / 9007199254740992 := by norm_num
  rw [he] at hl hu
  have hm0 : 0 < m := by
    rcases Nat.eq_zero_or_pos m with h0 | h0
    · subst h0
      norm_num at hl
    · exact h0
  have mq : (0 : ℚ) < m := by exact_mod_cast hm0
  have tq : (0 : ℚ) ≤ t := by exact_mod_cast Nat.zero_le t
  have mbq : (m : ℚ) ≤ 4294967295 := by
    have : m ≤ 4294967295 := by omega
    exact_mod_cast this
  obtain ⟨ml, mu⟩ := F64.mul_near (F64.ofNat t) r
  rw [F64.toRat_ofNat t (by omega), he] at ml mu
  have hrn := F64.toRat_nonneg r
  have hvn := F64.toRat_nonneg (F64.mul (F64.ofNat t) r)
  rw [F64.floor_eq_floor]
  generalize (F64.mul (F64.ofNat t) r).toRat = v at ml mu hvn ⊢
  generalize r.toRat = rr at hl hu ml mu hrn
  -- the exact quotient and remainder
  have hdm := Nat.div_add_mod (2048 * t) m
  have hρ := Nat.mod_lt (2048 * t) hm0
  have hN : 2048 * t / m ≤ 2048 := by
    apply Nat.div_le_of_le_mul
    omega
  generalize hNdef : 2048 * t / m = N at hdm hN ⊢
  generalize hρdef : 2048 * t % m = ρ at hdm hρ ⊢
  have hpq : (2048 : ℚ) * t = (m : ℚ) * N + ρ := by exact_mod_cast hdm.symm
  have Nq : (N : ℚ) ≤ 2048 := by exact_mod_cast hN
  have N0 : (0 : ℚ) ≤ N := by exact_mod_cast Nat.zero_le N
  have ρq : (ρ : ℚ) + 1 ≤ m := by exact_mod_cast hρ
  have ρ0 : (0 : ℚ) ≤ ρ := by exact_mod_cast Nat.zero_le ρ
  have hK : (m : ℚ) * N ≤ 2048 * m := by
    have := mul_le_mul_of_nonneg_left Nq mq.le
    linarith
  have hK0 : (0 : ℚ) ≤ (m : ℚ) * N := by positivity
  -- v * m against 2048 * t
  have up1 : v * m ≤ (t : ℚ) * (rr * m) * (1 + 1 / 9007199254740992) := by
    have := mul_le_mul_of_nonneg_right mu mq.le
    calc v * m ≤ (t : ℚ) * rr * (1 + 1 / 9007199254740992) * m := this
      _ = (t : ℚ) * (rr * m) * (1 + 1 / 9007199254740992) := by ring
  have up2 : (t : ℚ) * (rr * m) ≤ (t : ℚ) * (2048 * (1 + 1 / 9007199254740992)) :=
    mul_le_mul_of_nonneg_left hu tq
  have up : v * m ≤ ((m : ℚ) * N + ρ) * ((1 + 1 / 9007199254740992)
      * (1 + 1 / 9007199254740992)) := by
    have h3 := mul_le_mul_of_nonneg_right up2
      (by norm_num : (0 : ℚ) ≤ 1 + 1 / 9007199254740992)
    rw [← hpq]
    calc v * m ≤ (t : ℚ) * (rr * m) * (1 + 1 / 9007199254740992) := up1
      _ ≤ (t : ℚ) * (2048 * (1 + 1 / 9007199254740992)) * (1 + 1 / 9007199254740992) := h3
      _ = _ := by ring
  have lo1 : (t : ℚ) * (rr * m) * (1 - 1 / 9007199254740992) ≤ v * m := by
    have := mul_le_mul_of_nonneg_right ml mq.le
    calc (t : ℚ) * (rr * m) * (1 - 1 / 9007199254740992)
        = (t : ℚ) * rr * (1 - 1 / 9007199254740992) * m := by ring
      _ ≤ v * m := this
  have lo2 : (t : ℚ) * (2048 * (1 - 1 / 9007199254740992)) ≤ (t : ℚ) * (rr * m) :=
    mul_le_mul_of_nonneg_left hl tq
  have lo : ((m : ℚ) * N + ρ) * ((1 - 1 / 9007199254740992) * (1 - 1 / 9007199254740992))
      ≤ v * m := by
    have h3 := mul_le_mul_of_nonneg_right lo2
      (by norm_num : (0 : ℚ) ≤ 1 - 1 / 9007199254740992)
    rw [← hpq]
    calc _ = (t : ℚ) * (2048 * (1 - 1 / 9007199254740992)) * (1 - 1 / 9007199254740992) := by
          ring
      _ ≤ (t : ℚ) * (rr * m) * (1 - 1 / 9007199254740992) := h3
      _ ≤ v * m := lo1
  have hupper : v < (N : ℚ) + 1 := by
    have h4 : v * m < ((N : ℚ) + 1) * m := by
      have e : ((N : ℚ) + 1) * m = (m : ℚ) * N + m := by ring
      rw [e]
      refine lt_of_le_of_lt up ?_
      linarith
    exact lt_of_mul_lt_mul_right h4 mq.le
  have hlower : (N : ℚ) - 1 ≤ v := by
    have h4 : ((N : ℚ) - 1) * m ≤ v * m := by
      have e : ((N : ℚ) - 1) * m = (m : ℚ) * N - m := by ring
      rw [e]
      refine le_trans ?_ lo
      linarith
    exact le_of_mul_le_mul_right h4 mq
  have hle : ⌊v⌋₊ ≤ N := by
    have h5 : ⌊v⌋₊ < N + 1 := (Nat.floor_lt hvn).mpr (by push_cast; exact hupper)
    omega
  refine ⟨hle, ?_, ?_⟩
  · rcases Nat.eq_zero_or_pos N with h0 | h0
    · omega
    · obtain ⟨k, hk⟩ : ∃ k, N = k + 1 := ⟨N - 1, by omega⟩
      have hkq : ((k : Nat) : ℚ) ≤ v := by
        have e : (N : ℚ) = (k : ℚ) + 1 := by rw [hk]; push_cast; ring
        rw [e] at hlower
        linarith
      have := Nat.le_floor hkq
      omega
  · intro hne
    have hρ1 : (1 : ℚ) ≤ ρ := by
      have : 1 ≤ ρ := Nat.one_le_iff_ne_zero.mpr hne
      exact_mod_cast this
    have hNv : ((N : Nat) : ℚ) ≤ v := by
      have h4 : (N : ℚ) * m ≤ v * m := by
        have e : (N : ℚ) * m = (m : ℚ) * N := by ring
        rw [e]
        refine le_trans ?_ lo
        linarith
      exact le_of_mul_le_mul_right h4 mq
    exact le_antisymm hle (Nat.le_floor hNv)

/-- The target size computed by the code against the formula in exact arithmetic, for
positive sides below `2 ^ 32`: each side is the exact value or one pixel less, and it is
the exact value when the image is kept or `2048 * side / max` is not an integer. -/
theorem targetSize_vs_spec (w h : Nat) (hw : 0 < w) (hh : 0 < h) (hwb : w < 2 ^ 32)
    (hhb : h < 2 ^ 32) :
    ((targetSize ⟨w, h⟩).width ≤ (specTargetSize ⟨w, h⟩).width
      ∧ (specTargetSize ⟨w, h⟩).width ≤ (targetSize ⟨w, h⟩).width + 1
      ∧ ((w ≤ 2048 ∧ h ≤ 2048) ∨ 2048 * w % max w h ≠ 0 →
          (targetSize ⟨w, h⟩).width = (specTargetSize ⟨w, h⟩).width))
    ∧ ((targetSize ⟨w, h⟩).height ≤ (specTargetSize ⟨w, h⟩).height
      ∧ (specTargetSize ⟨w, h⟩).height ≤ (targetSize ⟨w, h⟩).height + 1
      ∧ ((w ≤ 2048 ∧ h ≤ 2048) ∨ 2048 * h % max w h ≠ 0 →
          (targetSize ⟨w, h⟩).height = (specTargetSize ⟨w, h⟩).height)) := by
  rw [specTargetSize_eq w h hw hh]
  unfold targetSize
  by_cases hbig : w > 2048 ∨ h > 2048
  · simp only [hbig, if_true]
    obtain ⟨hl, hu⟩ := ratio_max_bounds w h hw hh (by omega) (by omega)
    have hmb : max w h < 2 ^ 32 := by omega
    obtain ⟨a1, a2, a3⟩ := scaled_side_floor _ w (max w h) (Nat.le_max_left w h) hmb hl hu
    obtain ⟨b1, b2, b3⟩ := scaled_side_floor _ h (max w h) (Nat.le_max_right w h) hmb hl hu
    refine ⟨⟨a1, a2, ?_⟩, ⟨b1, b2, ?_⟩⟩
    · rintro (hs | hn)
      · omega
      · exact a3 hn
    · rintro (hs | hn)
      · omega
      · exact b3 hn
  · simp only [hbig, if_false]
    exact ⟨⟨le_refl _, Nat.le_succ _, fun _ => trivial⟩,
      ⟨le_refl _, Nat.le_succ _, fun _ => trivial⟩⟩

/-- A performed refresh keeps a current image in place, so the button stays. -/
theorem refresh_currentImage_ne_none (resp : Fetch ContentsBody) (nowMs : Nat) (s : State)
    (h : s.currentImage ≠ none) : (refresh resp nowMs s).currentImage ≠ none := by
  unfold refresh loadCurrentImage loadCurrentImageWith
  simp only [showToast]
  split_ifs
  · exact h
  · cases resp with
    | networkError msg => exact h
    | response ok json =>
      cases ok
      · exact h
      · cases json
        · exact h
        · simp

/-! ## Facts for the scheduler and the coordinator -/

/-- `uploadToGitHub` never touches the configuration, the preview or the current image. -/
theorem uploadToGitHub_frame (d : String) (read : Fetch ContentsBody) (write : Fetch ErrorBody)
    (save : Fetch RecentBody) (now : Clock) (s : State) :
    (uploadToGitHub d read write save now s).config = s.config
    ∧ (uploadToGitHub d read write save now s).githubToken = s.githubToken
    ∧ (uploadToGitHub d read write save now s).repoPath = s.repoPath
    ∧ (uploadToGitHub d read write save now s).previewImage = s.previewImage
    ∧ (uploadToGitHub d read write save now s).currentImage = s.currentImage := by
  unfold uploadToGitHub
  by_cases hc : effectiveToken s = "" ∨ effectiveRepo s = ""
  · simp [hc, showToast]
  · simp only [hc, if_false]
    cases write with
    | networkError msg => simp [showToast]
    | response ok json =>
      cases ok
      · cases json <;> simp [showToast]
      · cases commaPart1 d with
        | none => simp [showToast]
        | some b =>
          simp only [saveRecentToServer]
          split <;> simp [showToast]

theorem uploadToGitHub_effective (d : String) (read : Fetch ContentsBody)
    (write : Fetch ErrorBody) (save : Fetch RecentBody) (now : Clock) (s : State) :
    effectiveToken (uploadToGitHub d read write save now s) = effectiveToken s
    ∧ effectiveRepo (uploadToGitHub d read write save now s) = effectiveRepo s := by
  obtain ⟨h1, h2, h3, _, _⟩ := uploadToGitHub_frame d read write save now s
  unfold effectiveToken effectiveRepo
  rw [h1, h2, h3]
  exact ⟨rfl, rfl⟩

/-- Without token or path `uploadToGitHub` only shows the configuration toast. -/
theorem uploadToGitHub_unconfigured (d : String) (read : Fetch ContentsBody)
    (write : Fetch ErrorBody) (save : Fetch RecentBody) (now : Clock) (s : State)
    (h : effectiveToken s = "" ∨ effectiveRepo s = "") :
    uploadToGitHub d read write save now s
      = showToast "GitHub settings not configured" "error" s := by
  unfold uploadToGitHub
  simp only [h, if_true]

/-- The requests of a configured upload, whatever the outcomes: the read, then the write
with the payload and the token found, then at most the note to the recent-uploads
service. -/
theorem uploadToGitHub_requests (d : String) (read : Fetch ContentsBody)
    (write : Fetch ErrorBody) (save : Fetch RecentBody) (now : Clock) (s : State)
    (ht : effectiveToken s ≠ "") (hr : effectiveRepo s ≠ "") :
    ∃ tail : List Request,
      (uploadToGitHub d read write save now s).requests
        = s.requests ++ [Request.getContents (effectiveRepo s) "image1.jpg" (effectiveToken s),
            Request.putContents (effectiveRepo s) "image1.jpg" (effectiveToken s)
              ("Update image1.jpg - " ++ now 0) (commaPart1 d)
              ((readSha read).filter (fun x => x ≠ ""))] ++ tail
      ∧ ∀ r ∈ tail, ∃ u t n, r = Request.postRecent u t n := by
  unfold uploadToGitHub
  simp only [ht, hr, or_self, if_false]
  cases write with
  | networkError msg => exact ⟨[], by simp [showToast], by simp⟩
  | response ok json =>
    cases ok
    · cases json <;> exact ⟨[], by simp [showToast], by simp⟩
    · cases commaPart1 d with
      | none => exact ⟨[], by simp [showToast], by simp⟩
      | some b =>
        refine ⟨[Request.postRecent d (now 2)
          (F64.jsRound (F64.mul (F64.ofNat b.length) (F64.lit 75 100)))], ?_, ?_⟩
        · simp [saveRecentToServer_requests, showToast]
        · intro r hmem
          simp only [List.mem_singleton] at hmem
          exact ⟨_, _, _, hmem⟩

/-- The token sent is the `sha` of a 2xx answer with a readable body, when it is not empty. -/
theorem readSha_filter_eq_some (read : Fetch ContentsBody) (x : String) :
    (readSha read).filter (fun x => x ≠ "") = some x
      ↔ x ≠ "" ∧ ∃ data : ContentsBody, read = Fetch.response true (Except.ok data)
          ∧ data.sha = some x := by
  unfold readSha
  constructor
  · intro h
    split at h
    · rename_i data
      cases hs : data.sha with
      | none => rw [hs] at h; simp at h
      | some y =>
        rw [hs] at h
        by_cases hy : y = ""
        · simp [Option.filter, hy] at h
        · simp [Option.filter, hy] at h
          subst h
          exact ⟨hy, data, rfl, hs⟩
    · simp at h
  · rintro ⟨hx, data, rfl, hs⟩
    simp [hs, Option.filter, hx]

theorem readSha_of_not_ok (read : Fetch ContentsBody) (h : read.isOk = false) :
    readSha read = none := by
  unfold readSha
  split
  · simp [Fetch.isOk] at h
  · rfl

theorem refresh_processingImage (resp : Fetch ContentsBody) (nowMs : Nat) (s : State) :
    (refresh resp nowMs s).processingImage = none := by
  unfold refresh loadCurrentImage loadCurrentImageWith
  simp only [showToast]
  split_ifs
  · rfl
  · cases resp with
    | networkError msg => rfl
    | response ok json => cases ok <;> cases json <;> rfl

theorem reloads_append (a b : List Timer) : reloads (a ++ b) = reloads a ++ reloads b := by
  unfold reloads
  simp

/-- The re-reads registered by an upload that the store accepted: one, at 10000 ms. -/
theorem uploadToGitHub_ok_reloads (d : String) (read : Fetch ContentsBody)
    (json : Except String ErrorBody) (save : Fetch RecentBody) (now : Clock) (s : State)
    (ht : effectiveToken s ≠ "") (hr : effectiveRepo s ≠ "") :
    reloads (uploadToGitHub d read (Fetch.response true json) save now s).timers
      = reloads s.timers ++ [Timer.reload 10000 (effectiveToken s) (effectiveRepo s)] := by
  rw [uploadToGitHub_ok_timers d read json save now s ht hr]
  simp only [reloads_append]
  cases commaPart1 d <;> simp [reloads]

/-- In a path `owner/repoName` the public URL is `https://owner.github.io/repoName/image1.jpg`. -/
theorem pagesUrl_two_segments (owner repoName : String) (ho : '/' ∉ owner.toList)
    (hn : '/' ∉ repoName.toList) :
    pagesUrl (owner ++ "/" ++ repoName)
      = "https://" ++ owner ++ ".github.io/" ++ repoName ++ "/image1.jpg" := by
  have e : (owner ++ "/" ++ repoName).toList = owner.toList ++ '/' :: repoName.toList := by
    simp [String.toList]
  unfold pagesUrl
  rw [e, splitChars_append _ _ _ ho, splitChars_no_sep _ _ hn]
  simp [String.toList]

/-! ## Claims -/

/-- C1: what holds of the claim and where the code leaves it.  For a decoded image of
positive natural size `w` x `h` (sides below `2 ^ 32`) `resizeImage` resolves with
`originalSize = (w, h)`; `newSize` is `(w, h)` when both sides are at most 2048; otherwise
each side of `newSize` is the claimed `floor(side * min(2048 / w, 2048 / h))` or one pixel
less, and it is the claimed value when `2048 * side / max(w, h)` is not an integer.
4000 x 3000 gives the claimed 2048 x 1536.  At 2215 x 1000 the claim gives 2048 x 924 and
the code 2047 x 924, because `2215 * (2048 / 2215)` rounds to a number below 2048. -/
theorem resizeImage_against_formula :
    (∀ (enc : Encoder) (s : State) (file : File) (w h : Nat),
      0 < w → 0 < h → w < 2 ^ 32 → h < 2 ^ 32 → file.image = some ⟨w, h⟩ →
      (∀ sz q, ∃ p, commaPart1 (enc file sz "image/jpeg" q) = some p) →
      ∃ r, resizeImage enc s file = some r
        ∧ r.originalSize = ⟨w, h⟩
        ∧ (w ≤ 2048 ∧ h ≤ 2048 → r.newSize = ⟨w, h⟩ ∧ specTargetSize ⟨w, h⟩ = ⟨w, h⟩)
        ∧ (r.newSize.width ≤ (specTargetSize ⟨w, h⟩).width
          ∧ (specTargetSize ⟨w, h⟩).width ≤ r.newSize.width + 1
          ∧ (2048 * w % max w h ≠ 0 → r.newSize.width = (specTargetSize ⟨w, h⟩).width))
        ∧ (r.newSize.height ≤ (specTargetSize ⟨w, h⟩).height
          ∧ (specTargetSize ⟨w, h⟩).height ≤ r.newSize.height + 1
          ∧ (2048 * h % max w h ≠ 0 → r.newSize.height = (specTargetSize ⟨w, h⟩).height)))
    ∧ (resizeImage sampleEncoder State.init samplePng).map (fun r => r.newSize)
        = some ⟨2048, 1536⟩
    ∧ specTargetSize ⟨4000, 3000⟩ = ⟨2048, 1536⟩
    ∧ (resizeImage sampleEncoder State.init ⟨"image/png", 3000000, some ⟨2215, 1000⟩⟩).map
        (fun r => r.newSize) = some ⟨2047, 924⟩
    ∧ specTargetSize ⟨2215, 1000⟩ = ⟨2048, 924⟩ := by
  refine ⟨?_, by decide, ?_, by decide, ?_⟩
  · intro enc s file w h hw hh hwb hhb hdec henc
    obtain ⟨p, hp⟩ := henc (targetSize ⟨w, h⟩) (getCompressionQuality s)
    obtain ⟨⟨a1, a2, a3⟩, ⟨b1, b2, b3⟩⟩ := targetSize_vs_spec w h hw hh hwb hhb
    refine ⟨_, resizeImage_some enc s file ⟨w, h⟩ p hdec hp, rfl, ?_,
      ⟨a1, a2, fun hn => a3 (Or.inr hn)⟩, ⟨b1, b2, fun hn => b3 (Or.inr hn)⟩⟩
    intro hsmall
    have hn : ¬ (w > 2048 ∨ h > 2048) := by omega
    constructor
    · show targetSize ⟨w, h⟩ = ⟨w, h⟩
      unfold targetSize
      simp only [hn, if_false]
    · rw [specTargetSize_eq w h hw hh]
      simp only [hn, if_false]
  · rw [specTargetSize_eq 4000 3000 (by decide) (by decide)]
    decide
  · rw [specTargetSize_eq 2215 1000 (by decide) (by decide)]
    decide

/-- C1, at a 5472 x 3648 photograph: the original size is recorded, the height is the
claimed 1365 and the width is 2048 or one less. -/
theorem resizeImage_against_formula_witness :
    ∃ r, resizeImage sampleEncoder State.init samplePhoto = some r
      ∧ r.originalSize = ⟨5472, 3648⟩
      ∧ r.newSize.height = 1365
      ∧ r.newSize.width ≤ 2048 ∧ 2048 ≤ r.newSize.width + 1 := by
  obtain ⟨r, h1, h2, _, ⟨a1, a2, _⟩, ⟨_, _, b3⟩⟩ :=
    resizeImage_against_formula.1 sampleEncoder State.init samplePhoto 5472 3648
      (by decide) (by decide) (by decide) (by decide) rfl
      (fun sz q => ⟨"AAAA", sampleEncoder_payload samplePhoto sz "image/jpeg" q⟩)
  have hs : specTargetSize ⟨5472, 3648⟩ = ⟨2048, 1365⟩ := by
    rw [specTargetSize_eq 5472 3648 (by decide) (by decide)]
    decide
  rw [hs] at a1 a2 b3
  exact ⟨r, h1, h2, b3 (by decide), a1, a2⟩

/-- C2, the code at 3136 x 2000 and 3136 x 3136: the constraining axis comes out as 2047,
not 2048, because `3136 * (2048 / 3136)` rounds to the number just below 2048. -/
theorem resizeImage_constraining_axis_short :
    (resizeImage sampleEncoder State.init ⟨"image/png", 3000000, some ⟨3136, 2000⟩⟩).map
        (fun r => r.newSize) = some ⟨2047, 1306⟩
    ∧ (resizeImage sampleEncoder State.init ⟨"image/png", 3000000, some ⟨3136, 3136⟩⟩).map
        (fun r => r.newSize) = some ⟨2047, 2047⟩
    ∧ F64.mul (F64.ofNat 3136) (F64.div (F64.ofNat 2048) (F64.ofNat 3136))
        = ⟨2 ^ 53 - 1, -42⟩ := by
  decide

/-- C3: `getCompressionQuality` is the table: `1.0` in mode `none`, `quality / 100` as it
is in mode `manual` (so `0.5` for a stored 50), and in every other mode `0.90` for
`high`, `0.70` for `medium`, `0.50` for `low` and `0.70` for any other tier. -/
theorem getCompressionQuality_table (s : State) :
    getCompressionQuality s =
      (if s.compressionMode = "none" then F64.lit 10 10
       else if s.compressionMode = "manual" then F64.div (F64.ofNat s.quality) (F64.ofNat 100)
       else if s.preset = "high" then F64.lit 90 100
       else if s.preset = "medium" then F64.lit 70 100
       else if s.preset = "low" then F64.lit 50 100
       else F64.lit 70 100)
    ∧ (F64.lit 10 10).toRat = 1
    ∧ (F64.div (F64.ofNat 50) (F64.ofNat 100)).toRat = 1 / 2
    ∧ (F64.lit 50 100).toRat = 1 / 2
    ∧ F64.lit 90 100 = ⟨8106479329266893, -53⟩
    ∧ F64.lit 70 100 = ⟨6305039478318694, -53⟩ := by
  refine ⟨getCompressionQuality_eq s, ?_, ?_, ?_, by decide, by decide⟩
  · have : F64.lit 10 10 = ⟨2 ^ 52, -52⟩ := by decide
    rw [this]; unfold F64.toRat; norm_num
  · have : F64.div (F64.ofNat 50) (F64.ofNat 100) = ⟨2 ^ 52, -53⟩ := by decide
    rw [this]; unfold F64.toRat; norm_num
  · have : F64.lit 50 100 = ⟨2 ^ 52, -53⟩ := by decide
    rw [this]; unfold F64.toRat; norm_num

/-- C3, at a stored manual quality of 50 and at an unknown preset tier. -/
theorem getCompressionQuality_table_witness :
    (getCompressionQuality { State.init with compressionMode := "manual", quality := 50 }).toRat
        = 1 / 2
    ∧ getCompressionQuality { State.init with preset := "unknown-tier" } = F64.lit 70 100 := by
  constructor
  · rw [(getCompressionQuality_table _).1]
    exact (getCompressionQuality_table State.init).2.2.1
  · rw [(getCompressionQuality_table _).1]
    decide

/-- C4: when the manual quality, if the mode is manual, is a slider position in 10..100,
the factor returned by `getCompressionQuality` lies in `(0, 1]`; nothing is asked of the
preset tier or of mode `none`. -/
theorem getCompressionQuality_unit_interval (s : State)
    (hq : s.compressionMode = "manual" → 10 ≤ s.quality ∧ s.quality ≤ 100) :
    0 < (getCompressionQuality s).toRat ∧ (getCompressionQuality s).toRat ≤ 1 := by
  apply F64.unit_of_check
  rw [getCompressionQuality_eq]
  split_ifs with h1 h2
  · decide
  · obtain ⟨l, u⟩ := hq h2
    exact manual_quality_check ⟨s.quality, by omega⟩ l
  · decide
  · decide
  · decide
  · decide

/-- C4, at the lower end of the slider: manual quality 10. -/
theorem getCompressionQuality_unit_interval_witness :
    0 < (getCompressionQuality { State.init with compressionMode := "manual", quality := 10 }).toRat
    ∧ (getCompressionQuality { State.init with compressionMode := "manual", quality := 10 }).toRat
        ≤ 1 :=
  getCompressionQuality_unit_interval _ (fun _ => by decide)

/-- C5: `handleFile` hands the file to `resizeImage` exactly when it is present, its type
starts with `image/` and its size is at most `20 * 1024 * 1024`; a missing file or another
type is refused first as unsupported, a larger file as too large; a refusal only shows a
toast, whatever the encoder, and leaves `previewImage` as it was. -/
theorem handleFile_admission (enc : Encoder) (s : State) :
    (∀ f : File, startsWith f.type "image/" = true → f.size ≤ 20 * 1024 * 1024 →
      handleFile enc (some f) s =
        match resizeImage enc s f with
        | none => s
        | some result =>
          showToast "Image ready for upload" "success"
            { s with previewImage := some ⟨result, f⟩ })
    ∧ handleFile enc none s = showToast "Please select an image file" "error" s
    ∧ (∀ f : File, startsWith f.type "image/" = false →
        handleFile enc (some f) s = showToast "Please select an image file" "error" s)
    ∧ (∀ f : File, startsWith f.type "image/" = true → 20 * 1024 * 1024 < f.size →
        handleFile enc (some f) s = showToast "File too large (max 20MB)" "error" s)
    ∧ (∀ message type : String, (showToast message type s).previewImage = s.previewImage) := by
  refine ⟨?_, rfl, ?_, ?_, fun _ _ => rfl⟩
  · intro f h1 h2
    have h3 : ¬ (f.size > 20 * 1024 * 1024) := by omega
    simp only [handleFile, h1, h3, Bool.not_true, if_false]
    rfl
  · intro f h1
    simp only [handleFile, h1, Bool.not_false, if_true]
  · intro f h1 h2
    have h3 : f.size > 20 * 1024 * 1024 := h2
    simp only [handleFile, h1, h3, Bool.not_true, if_false, if_true]
    rfl

/-- C5, at the boundary: a PNG of exactly `20 * 1024 * 1024` bytes becomes the preview, one
byte more is refused as too large and the preview stays empty. -/
theorem handleFile_admission_witness :
    (handleFile sampleEncoder (some ⟨"image/png", 20 * 1024 * 1024, some ⟨4000, 3000⟩⟩)
        State.init).previewImage.map (fun p => p.result.newSize) = some ⟨2048, 1536⟩
    ∧ handleFile sampleEncoder (some ⟨"image/png", 20 * 1024 * 1024 + 1, some ⟨4000, 3000⟩⟩)
        State.init = showToast "File too large (max 20MB)" "error" State.init
    ∧ (handleFile sampleEncoder (some ⟨"image/png", 20 * 1024 * 1024 + 1, some ⟨4000, 3000⟩⟩)
        State.init).previewImage = none := by
  obtain ⟨h1, _, _, h4, h5⟩ := handleFile_admission sampleEncoder State.init
  refine ⟨?_, ?_, ?_⟩
  · rw [h1 _ (by decide) (by decide)]
    decide
  · exact h4 _ (by decide) (by decide)
  · rw [h4 _ (by decide) (by decide), h5]
    rfl

/-- C6: whatever the MIME type of the input and whatever the compression settings, the
result has `outputFormat = "jpeg"`, its data URL is the canvas encoded as `image/jpeg` at
quality `getCompressionQuality()`, and `originalFormat` is `jpeg` exactly for the types
`image/jpeg` and `image/jpg`, `png` exactly for `image/png`, and `other` otherwise. -/
theorem resizeImage_formats (enc : Encoder) (s : State) (file : File) (img : Size)
    (hdec : file.image = some img)
    (henc : ∀ sz q, ∃ p, commaPart1 (enc file sz "image/jpeg" q) = some p) :
    ∃ r, resizeImage enc s file = some r
      ∧ r.outputFormat = "jpeg"
      ∧ r.dataUrl = enc file r.newSize "image/jpeg" (getCompressionQuality s)
      ∧ (r.originalFormat = "jpeg" ↔ (file.type = "image/jpeg" ∨ file.type = "image/jpg"))
      ∧ (r.originalFormat = "png" ↔ file.type = "image/png")
      ∧ (r.originalFormat = "other" ↔
          (file.type ≠ "image/jpeg" ∧ file.type ≠ "image/jpg" ∧ file.type ≠ "image/png")) := by
  obtain ⟨p, hp⟩ := henc (targetSize img) (getCompressionQuality s)
  refine ⟨_, resizeImage_some enc s file img p hdec hp, rfl, rfl, ?_, ?_, ?_⟩
  · show (if file.type = "image/jpeg" ∨ file.type = "image/jpg" then "jpeg"
        else (if file.type = "image/png" then "png" else "other")) = "jpeg" ↔ _
    split_ifs with h1 h2
    · simp [h1]
    · simp [h1]
    · simp [h1]
  · show (if file.type = "image/jpeg" ∨ file.type = "image/jpg" then "jpeg"
        else (if file.type = "image/png" then "png" else "other")) = "png" ↔ _
    split_ifs with h1 h2
    · rcases h1 with h1 | h1 <;> simp [h1]
    · simp [h2]
    · simp [h2]
  · show (if file.type = "image/jpeg" ∨ file.type = "image/jpg" then "jpeg"
        else (if file.type = "image/png" then "png" else "other")) = "other" ↔ _
    split_ifs with h1 h2
    · rcases h1 with h1 | h1 <;> simp [h1]
    · simp [h2]
    · push_neg at h1
      simp [h1.1, h1.2, h2]

/-- C6, at the PNG sample in mode `none`: the output is still a JPEG, encoded at quality 1,
and the original format is recorded as `png`. -/
theorem resizeImage_formats_witness :
    ∃ r, resizeImage sampleEncoder { State.init with compressionMode := "none" } samplePng = some r
      ∧ r.outputFormat = "jpeg" ∧ r.originalFormat = "png"
      ∧ r.dataUrl = sampleEncoder samplePng ⟨2048, 1536⟩ "image/jpeg" (F64.lit 10 10) := by
  obtain ⟨r, h1, h2, h3, _, h5, _⟩ :=
    resizeImage_formats sampleEncoder { State.init with compressionMode := "none" } samplePng
      ⟨4000, 3000⟩ rfl (fun sz q => ⟨"AAAA", sampleEncoder_payload samplePng sz "image/jpeg" q⟩)
  exact ⟨r, h1, h2, h5.mpr rfl, by rw [h3]; rfl⟩

/-- C7: when the encoded data URL is `header,payload` with a comma in neither part and
the payload has `n` characters, `estimatedSize` is `Math.round(n * 0.75)`, which is
`⌊(3 n + 2) / 4⌋`, and an upload of that data URL reports the same size to the
recent-uploads service.  `3 n < 2 ^ 53` holds for every string an engine can hold. -/
theorem estimatedSize_formula (enc : Encoder) (s : State) (file : File) (img : Size)
    (header payload : String) (hdec : file.image = some img)
    (hurl : enc file (targetSize img) "image/jpeg" (getCompressionQuality s)
      = header ++ "," ++ payload)
    (hh : ',' ∉ header.toList) (hp : ',' ∉ payload.toList)
    (hlen : 3 * payload.length < 2 ^ 53) :
    ∃ r, resizeImage enc s file = some r
      ∧ r.estimatedSize = (3 * payload.length + 2) / 4
      ∧ ∀ (read : Fetch ContentsBody) (json : Except String ErrorBody) (save : Fetch RecentBody)
          (now : Clock) (st : State), effectiveToken st ≠ "" → effectiveRepo st ≠ "" →
          Request.postRecent r.dataUrl (now 2) ((3 * payload.length + 2) / 4)
            ∈ (uploadToGitHub r.dataUrl read (Fetch.response true json) save now st).requests := by
  have hpart : commaPart1 (enc file (targetSize img) "image/jpeg" (getCompressionQuality s))
      = some payload := by
    rw [hurl]; exact commaPart1_dataUrl header payload hh hp
  refine ⟨_, resizeImage_some enc s file img payload hdec hpart, ?_, ?_⟩
  · exact F64.jsRound_mul_075 payload.length hlen
  · intro read json save now st ht hr
    have hreq := uploadToGitHub_ok_requests _ payload read json save now st ht hr hpart
    rw [hreq, F64.jsRound_mul_075 payload.length hlen]
    simp

/-- C7, at the sample: a payload of 4 characters gives the size 3, in the preview and in the
note to the recent-uploads service. -/
theorem estimatedSize_formula_witness :
    ∃ r, resizeImage sampleEncoder State.init samplePng = some r
      ∧ r.estimatedSize = 3
      ∧ Request.postRecent r.dataUrl (sampleClock 2) 3
          ∈ (uploadToGitHub r.dataUrl (Fetch.networkError "") (Fetch.response true (Except.error ""))
              (Fetch.networkError "") sampleClock sampleState).requests := by
  obtain ⟨r, h1, h2, h3⟩ := estimatedSize_formula sampleEncoder State.init samplePng ⟨4000, 3000⟩
    "data:image/jpeg;base64" "AAAA" rfl (by decide) (by decide) (by decide) (by decide)
  exact ⟨r, h1, h2, h3 _ _ _ sampleClock sampleState (by decide) (by decide)⟩

/-- C8: when the write is answered 2xx, `uploadToGitHub` ends with `processingImage` set to
the data URL it was given, whose `split(',')[1]` is the content of the write request, and
with the re-read registered. -/
theorem uploadToGitHub_pending (imageData : String) (read : Fetch ContentsBody)
    (json : Except String ErrorBody) (save : Fetch RecentBody) (now : Clock) (s : State)
    (ht : effectiveToken s ≠ "") (hr : effectiveRepo s ≠ "") :
    (uploadToGitHub imageData read (Fetch.response true json) save now s).processingImage
      = some ⟨imageData, now 1⟩
    ∧ (∃ sha, Request.putContents (effectiveRepo s) "image1.jpg" (effectiveToken s)
          ("Update image1.jpg - " ++ now 0) (commaPart1 imageData) sha
        ∈ (uploadToGitHub imageData read (Fetch.response true json) save now s).requests)
    ∧ Timer.reload 10000 (effectiveToken s) (effectiveRepo s)
        ∈ (uploadToGitHub imageData read (Fetch.response true json) save now s).timers := by
  refine ⟨uploadToGitHub_ok_processingImage imageData read json save now s ht hr,
    ⟨_, uploadToGitHub_ok_put imageData read json save now s ht hr⟩, ?_⟩
  rw [uploadToGitHub_ok_timers imageData read json save now s ht hr]
  simp

/-- C8, at the sample: an idle configured state becomes pending with the uploaded bytes. -/
theorem uploadToGitHub_pending_witness :
    sampleState.processingImage = none
    ∧ (uploadToGitHub "data:image/jpeg;base64,AAAA" (Fetch.networkError "")
        (Fetch.response true (Except.error "")) (Fetch.networkError "") sampleClock
        sampleState).processingImage
      = some ⟨"data:image/jpeg;base64,AAAA", "2024-01-01T00:00:00.000Z"⟩ :=
  ⟨rfl, (uploadToGitHub_pending _ _ _ _ sampleClock sampleState (by decide) (by decide)).1⟩

/-- C9, what the code does when the write fails: after `confirmUpload` the placeholder is
as before and no re-read has been registered, but `reuseImage` sets the placeholder to the
reused bytes and registers a re-read at 3000 ms all the same, since `uploadToGitHub`
reports its failures with a toast and returns normally. -/
theorem failed_write_placeholder (imageData : String) (fetched : Option String)
    (read : Fetch ContentsBody) (write : Fetch ErrorBody) (save : Fetch RecentBody)
    (now : Clock) (s : State)
    (hf : writeFails s write) (hd : startsWith imageData "http" = false) :
    (confirmUpload read write save now s).processingImage = s.processingImage
    ∧ (∀ d t r, Timer.reload d t r ∈ (confirmUpload read write save now s).timers →
        Timer.reload d t r ∈ s.timers)
    ∧ (reuseImage imageData fetched read write save now s).processingImage
        = some ⟨imageData, now 3⟩
    ∧ Timer.reload 3000 (effectiveToken s) (effectiveRepo s)
        ∈ (reuseImage imageData fetched read write save now s).timers := by
  obtain ⟨hc1, hc2⟩ := confirmUpload_failed read write save now s hf
  refine ⟨hc1, ?_, ?_, ?_⟩
  · intro d t r hmem
    rcases hc2 with h | h
    · rw [h] at hmem; exact hmem
    · rw [h] at hmem; simpa using hmem
  · unfold reuseImage
    simp only [hd]
    rfl
  · unfold reuseImage
    simp only [hd]
    simp

/-- C9, at the sample: the store refuses the write of a reused image with 409, and the
state that was idle is pending afterwards, with a re-read registered. -/
theorem failed_write_placeholder_witness :
    sampleState.processingImage = none
    ∧ (reuseImage "data:image/jpeg;base64,AAAA" none (Fetch.networkError "") sampleConflict
        (Fetch.networkError "") sampleClock sampleState).processingImage
      = some ⟨"data:image/jpeg;base64,AAAA", "2024-01-01T00:00:00.000Z"⟩
    ∧ Timer.reload 3000 "token" "owner/repo"
        ∈ (reuseImage "data:image/jpeg;base64,AAAA" none (Fetch.networkError "") sampleConflict
            (Fetch.networkError "") sampleClock sampleState).timers := by
  obtain ⟨_, _, h3, h4⟩ := failed_write_placeholder "data:image/jpeg;base64,AAAA" none
    (Fetch.networkError "") sampleConflict (Fetch.networkError "") sampleClock sampleState
    (Or.inr (Or.inr rfl)) (by decide)
  exact ⟨rfl, h3, h4⟩

/-- C10, as stated, fails: a scheduled re-read that the store answers with a non-2xx status
leaves the placeholder in place. -/
theorem scheduled_reread_failure_keeps_placeholder :
    (fireTimer (Timer.reload 10000 "token" "owner/repo") (Fetch.response false (Except.error ""))
        0 samplePending).processingImage
      = some ⟨"data:image/jpeg;base64,BBBB", "earlier"⟩
    ∧ (loadCurrentImage samplePending (Fetch.networkError "offline") 0 samplePending).processingImage
      ≠ none := by
  decide

/-- C10, amended: a re-read answered 2xx with a readable body clears `processingImage` and
replaces `currentImage` by the version read (url, sha, size, repo); a re-read that fails
(non-2xx or network error) leaves `processingImage` and `currentImage` both as they were;
the Refresh button clears `processingImage` itself, so a manual re-read ends idle on every
outcome, with the stale `currentImage` kept on failure. -/
theorem reread_outcomes (render s : State) (nowMs : Nat) :
    (∀ data : ContentsBody, effectiveToken render ≠ "" → effectiveRepo render ≠ "" →
      (loadCurrentImage render (Fetch.response true (Except.ok data)) nowMs s).processingImage
          = none
      ∧ (loadCurrentImage render (Fetch.response true (Except.ok data)) nowMs s).currentImage
          = some ⟨"https://raw.githubusercontent.com/" ++ effectiveRepo render
              ++ "/main/image1.jpg?t=" ++ toString nowMs, data.sha, data.size,
              effectiveRepo render⟩)
    ∧ (∀ resp : Fetch ContentsBody, resp.isOk = false →
      (loadCurrentImage render resp nowMs s).processingImage = s.processingImage
      ∧ (loadCurrentImage render resp nowMs s).currentImage = s.currentImage)
    ∧ (∀ resp : Fetch ContentsBody, (refresh resp nowMs s).processingImage = none)
    ∧ (∀ resp : Fetch ContentsBody, resp.isOk = false →
        (refresh resp nowMs s).currentImage = s.currentImage) := by
  obtain ⟨h1, h2⟩ := loadCurrentImageWith_outcomes (effectiveToken render) (effectiveRepo render)
    nowMs s
  refine ⟨h1, h2, ?_, ?_⟩
  · intro resp
    unfold refresh loadCurrentImage loadCurrentImageWith
    simp only [showToast]
    split_ifs
    · rfl
    · cases resp with
      | networkError msg => rfl
      | response ok json =>
        cases ok <;> cases json <;> rfl
  · intro resp hf
    have := (loadCurrentImageWith_outcomes (effectiveToken s) (effectiveRepo s) nowMs
      { s with processingImage := none }).2 resp hf
    exact this.2

/-- C10 amended, at the sample: the failed scheduled re-read keeps placeholder and current
image, the same failure after a click on Refresh ends idle. -/
theorem reread_outcomes_witness :
    (loadCurrentImage samplePending (Fetch.networkError "offline") 0 samplePending).processingImage
      = samplePending.processingImage
    ∧ (refresh (Fetch.networkError "offline") 0 samplePending).processingImage = none := by
  obtain ⟨_, h2, h3, _⟩ := reread_outcomes samplePending samplePending 0
  exact ⟨(h2 (Fetch.networkError "offline") rfl).1, h3 _⟩

/-- C11, as stated, fails: the first upload's re-read is still registered when the second
upload has set its placeholder, and when that re-read is answered 2xx it clears the
second upload's placeholder. -/
theorem stale_reread_clears_newer_placeholder :
    Timer.reload 10000 "token" "owner/repo" ∈ sampleAfterFirst.timers
    ∧ sampleAfterSecond.processingImage
        = some ⟨"data:image/jpeg;base64,BBBB", "2024-01-01T00:00:00.000Z"⟩
    ∧ (fireTimer (Timer.reload 10000 "token" "owner/repo") sampleRead 7
        sampleAfterSecond).processingImage = none := by
  decide

/-- C11, amended: there is no generation check.  When a second accepted upload has set its
placeholder while the re-read of a first one is outstanding, the completion of that
earlier re-read clears the placeholder if the store answers it 2xx with a readable body,
and leaves the second upload's bytes in place only if the re-read fails. -/
theorem stale_reread_outcomes (d1 d2 : String) (read1 read2 : Fetch ContentsBody)
    (json1 json2 : Except String ErrorBody) (save1 save2 : Fetch RecentBody)
    (now1 now2 : Clock) (s s1 s2 : State)
    (ht : effectiveToken s ≠ "") (hr : effectiveRepo s ≠ "")
    (h1 : s1 = uploadToGitHub d1 read1 (Fetch.response true json1) save1 now1 s)
    (h2 : s2 = uploadToGitHub d2 read2 (Fetch.response true json2) save2 now2 s1) :
    Timer.reload 10000 (effectiveToken s) (effectiveRepo s) ∈ s1.timers
    ∧ s2.processingImage = some ⟨d2, now2 1⟩
    ∧ (∀ (data : ContentsBody) (nowMs : Nat),
        (fireTimer (Timer.reload 10000 (effectiveToken s) (effectiveRepo s))
          (Fetch.response true (Except.ok data)) nowMs s2).processingImage = none)
    ∧ (∀ (resp : Fetch ContentsBody) (nowMs : Nat), resp.isOk = false →
        (fireTimer (Timer.reload 10000 (effectiveToken s) (effectiveRepo s))
          resp nowMs s2).processingImage = some ⟨d2, now2 1⟩) := by
  obtain ⟨e1, e2⟩ := uploadToGitHub_effective d1 read1 (Fetch.response true json1) save1 now1 s
  have ht1 : effectiveToken s1 ≠ "" := by rw [h1, e1]; exact ht
  have hr1 : effectiveRepo s1 ≠ "" := by rw [h1, e2]; exact hr
  have hp2 : s2.processingImage = some ⟨d2, now2 1⟩ := by
    rw [h2]; exact uploadToGitHub_ok_processingImage d2 read2 json2 save2 now2 s1 ht1 hr1
  refine ⟨?_, hp2, ?_, ?_⟩
  · rw [h1, uploadToGitHub_ok_timers d1 read1 json1 save1 now1 s ht hr]
    simp
  · intro data nowMs
    exact ((loadCurrentImageWith_outcomes (effectiveToken s) (effectiveRepo s) nowMs s2).1
      data ht hr).1
  · intro resp nowMs hf
    rw [← hp2]
    exact ((loadCurrentImageWith_outcomes (effectiveToken s) (effectiveRepo s) nowMs s2).2
      resp hf).1

/-- C11 amended, at the sample: the earlier re-read clears the second placeholder when it
succeeds and keeps it when the network is down. -/
theorem stale_reread_outcomes_witness :
    (fireTimer (Timer.reload 10000 (effectiveToken sampleState) (effectiveRepo sampleState))
        sampleRead 7 sampleAfterSecond).processingImage = none
    ∧ (fireTimer (Timer.reload 10000 (effectiveToken sampleState) (effectiveRepo sampleState))
        (Fetch.networkError "offline") 7 sampleAfterSecond).processingImage
      = some ⟨"data:image/jpeg;base64,BBBB", "2024-01-01T00:00:00.000Z"⟩ := by
  obtain ⟨_, _, h3, h4⟩ := stale_reread_outcomes "data:image/jpeg;base64,AAAA"
    "data:image/jpeg;base64,BBBB" sampleRead sampleRead (Except.error "") (Except.error "")
    (Fetch.networkError "") (Fetch.networkError "") sampleClock sampleClock
    sampleState sampleAfterFirst sampleAfterSecond (by decide) (by decide) rfl rfl
  exact ⟨h3 _ 7, h4 (Fetch.networkError "offline") 7 rfl⟩

/-- C12, as stated, fails: the write of a confirmed upload fails (network down, or status
409) and the preview that was there is gone when `confirmUpload` returns. -/
theorem confirmUpload_failure_drops_preview :
    samplePreview.previewImage ≠ none
    ∧ (confirmUpload sampleRead (Fetch.networkError "offline") (Fetch.networkError "")
        sampleClock samplePreview).previewImage = none
    ∧ (confirmUpload sampleRead sampleConflict (Fetch.networkError "")
        sampleClock samplePreview).previewImage = none := by
  decide

/-- C12, amended: `uploadToGitHub` itself leaves `previewImage` as it is, on failure and on
success, but the `finally` block of `confirmUpload` sets `previewImage` and
`estimatedSize` to null on every outcome, so after `confirmUpload` returns there is no
pending preview, also when the write failed. -/
theorem confirmUpload_clears_preview (d : String) (read : Fetch ContentsBody)
    (write : Fetch ErrorBody) (save : Fetch RecentBody) (now : Clock) (s : State) :
    (uploadToGitHub d read write save now s).previewImage = s.previewImage
    ∧ (confirmUpload read write save now s).previewImage = none
    ∧ (confirmUpload read write save now s).estimatedSize
        = (if s.previewImage = none then s.estimatedSize else none) := by
  refine ⟨(uploadToGitHub_frame d read write save now s).2.2.2.1, ?_, ?_⟩
  · unfold confirmUpload
    split
    · assumption
    · rfl
  · unfold confirmUpload
    split
    · rename_i h; simp [h]
    · rename_i p h; simp [h]

/-- C12 amended, at the sample preview with the network down. -/
theorem confirmUpload_clears_preview_witness :
    (uploadToGitHub "data:image/jpeg;base64,AAAA" sampleRead (Fetch.networkError "offline")
        (Fetch.networkError "") sampleClock samplePreview).previewImage
      = samplePreview.previewImage
    ∧ (confirmUpload sampleRead (Fetch.networkError "offline") (Fetch.networkError "")
        sampleClock samplePreview).previewImage = none := by
  obtain ⟨h1, h2, _⟩ := confirmUpload_clears_preview "data:image/jpeg;base64,AAAA" sampleRead
    (Fetch.networkError "offline") (Fetch.networkError "") sampleClock samplePreview
  exact ⟨h1, h2⟩

/-- C13: a configured `uploadToGitHub` always issues the write, whatever the read gave; the
write carries the change message and `imageData.split(',')[1]`, which is the payload of a
data URL; it carries a `sha` exactly when the read was answered 2xx with a body holding a
non-empty `sha`, and then that one, so none when the read was refused or failed. -/
theorem uploadToGitHub_write_request (imageData : String) (read : Fetch ContentsBody)
    (write : Fetch ErrorBody) (save : Fetch RecentBody) (now : Clock) (s : State)
    (ht : effectiveToken s ≠ "") (hr : effectiveRepo s ≠ "") :
    ∃ sha : Option String,
      Request.putContents (effectiveRepo s) "image1.jpg" (effectiveToken s)
          ("Update image1.jpg - " ++ now 0) (commaPart1 imageData) sha
        ∈ (uploadToGitHub imageData read write save now s).requests
      ∧ (∀ x : String, sha = some x ↔
          x ≠ "" ∧ ∃ data : ContentsBody, read = Fetch.response true (Except.ok data)
            ∧ data.sha = some x)
      ∧ (read.isOk = false → sha = none)
      ∧ (∀ header payload : String, imageData = header ++ "," ++ payload →
          ',' ∉ header.toList → ',' ∉ payload.toList → commaPart1 imageData = some payload)
      ∧ (∀ repo file token message content sha2,
          Request.putContents repo file token message content sha2
            ∈ (uploadToGitHub imageData read write save now s).requests →
          Request.putContents repo file token message content sha2 ∈ s.requests
          ∨ sha2 = sha) := by
  obtain ⟨tail, hreq, htail⟩ := uploadToGitHub_requests imageData read write save now s ht hr
  refine ⟨(readSha read).filter (fun x => x ≠ ""), ?_, ?_, ?_, ?_, ?_⟩
  · rw [hreq]; simp
  · intro x; exact readSha_filter_eq_some read x
  · intro h; rw [readSha_of_not_ok read h]; rfl
  · intro header payload he hh hp
    rw [he]; exact commaPart1_dataUrl header payload hh hp
  · intro repo file token message content sha2 hmem
    rw [hreq] at hmem
    simp only [List.mem_append, List.mem_cons, List.mem_singleton, List.not_mem_nil,
      or_false] at hmem
    rcases hmem with (h | h | h) | h
    · exact Or.inl h
    · cases h
    · injection h with _ _ _ _ _ h6
      exact Or.inr h6
    · obtain ⟨u, t, n, hr2⟩ := htail _ h
      cases hr2

/-- C13, at the sample: with the version `abc123` read, the write carries it; when the
resource is absent (404) the write is issued without a `sha`. -/
theorem uploadToGitHub_write_request_witness :
    Request.putContents "owner/repo" "image1.jpg" "token"
        "Update image1.jpg - 2024-01-01T00:00:00.000Z" (some "AAAA") (some "abc123")
      ∈ (uploadToGitHub "data:image/jpeg;base64,AAAA" sampleRead sampleWritten
          (Fetch.networkError "") sampleClock sampleState).requests
    ∧ Request.putContents "owner/repo" "image1.jpg" "token"
        "Update image1.jpg - 2024-01-01T00:00:00.000Z" (some "AAAA") none
      ∈ (uploadToGitHub "data:image/jpeg;base64,AAAA" (Fetch.response false (Except.error ""))
          sampleWritten (Fetch.networkError "") sampleClock sampleState).requests := by
  constructor
  · obtain ⟨sha, h1, h2, _, _, _⟩ := uploadToGitHub_write_request "data:image/jpeg;base64,AAAA"
      sampleRead sampleWritten (Fetch.networkError "") sampleClock sampleState
      (by decide) (by decide)
    have hs : sha = some "abc123" := (h2 "abc123").mpr ⟨by decide, ⟨_, rfl, rfl⟩⟩
    rw [hs] at h1
    exact h1
  · obtain ⟨sha, h1, _, h3, _, _⟩ := uploadToGitHub_write_request "data:image/jpeg;base64,AAAA"
      (Fetch.response false (Except.error "")) sampleWritten (Fetch.networkError "")
      sampleClock sampleState (by decide) (by decide)
    rw [h3 rfl] at h1
    exact h1

/-- C14: when the effective token or the effective repository path is empty,
`uploadToGitHub` only reports "GitHub settings not configured" as an error toast: it
issues no request and leaves `processingImage`, `currentImage` and `recentImages` as they
were. -/
theorem uploadToGitHub_not_configured (imageData : String) (read : Fetch ContentsBody)
    (write : Fetch ErrorBody) (save : Fetch RecentBody) (now : Clock) (s : State)
    (h : effectiveToken s = "" ∨ effectiveRepo s = "") :
    (uploadToGitHub imageData read write save now s).toast
        = some ⟨"GitHub settings not configured", "error"⟩
    ∧ (uploadToGitHub imageData read write save now s).requests = s.requests
    ∧ (uploadToGitHub imageData read write save now s).processingImage = s.processingImage
    ∧ (uploadToGitHub imageData read write save now s).currentImage = s.currentImage
    ∧ (uploadToGitHub imageData read write save now s).recentImages = s.recentImages
    ∧ reloads (uploadToGitHub imageData read write save now s).timers = reloads s.timers := by
  rw [uploadToGitHub_unconfigured imageData read write save now s h]
  refine ⟨rfl, rfl, rfl, rfl, rfl, ?_⟩
  simp [showToast, reloads]

/-- C14, at the initial state, which has neither token nor path: an upload that the store
would have accepted issues no request. -/
theorem uploadToGitHub_not_configured_witness :
    (uploadToGitHub "data:image/jpeg;base64,AAAA" sampleRead sampleWritten
        (Fetch.networkError "") sampleClock State.init).requests = []
    ∧ (uploadToGitHub "data:image/jpeg;base64,AAAA" sampleRead sampleWritten
        (Fetch.networkError "") sampleClock State.init).processingImage = none := by
  obtain ⟨_, h2, h3, _⟩ := uploadToGitHub_not_configured "data:image/jpeg;base64,AAAA"
    sampleRead sampleWritten (Fetch.networkError "") sampleClock State.init (Or.inl rfl)
  exact ⟨h2, h3⟩

/-- C15, as stated, fails: after a first accepted upload to a path that held no image the
state is pending and `currentImage` is null, so the card with the Refresh button is not
rendered and no manual refresh can be made. -/
theorem refresh_unavailable_without_current_image :
    sampleAfterFirst.processingImage ≠ none
    ∧ sampleAfterFirst.currentImage = none
    ∧ clickRefresh sampleRead 0 sampleAfterFirst = none := by
  decide

/-- C15, amended: a manual refresh can be made exactly while `currentImage` is set; when it
can be made it ends with `processingImage` null, whether the state was idle or pending
and whatever the re-read gives, the button is still there afterwards, and a second
refresh leaves `processingImage` null. -/
theorem clickRefresh_clears_pending (resp resp2 : Fetch ContentsBody) (nowMs nowMs2 : Nat)
    (s : State) :
    (s.currentImage = none → clickRefresh resp nowMs s = none)
    ∧ (s.currentImage ≠ none →
        ∃ s1, clickRefresh resp nowMs s = some s1
          ∧ s1.processingImage = none
          ∧ ∃ s2, clickRefresh resp2 nowMs2 s1 = some s2
              ∧ s2.processingImage = s1.processingImage) := by
  constructor
  · intro h
    unfold clickRefresh
    rw [h]
  · intro h
    have e1 : clickRefresh resp nowMs s = some (refresh resp nowMs s) := by
      unfold clickRefresh
      cases hc : s.currentImage with
      | none => exact absurd hc h
      | some cur => rfl
    have h1 := refresh_currentImage_ne_none resp nowMs s h
    have e2 : clickRefresh resp2 nowMs2 (refresh resp nowMs s)
        = some (refresh resp2 nowMs2 (refresh resp nowMs s)) := by
      unfold clickRefresh
      cases hc : (refresh resp nowMs s).currentImage with
      | none => exact absurd hc h1
      | some cur => rfl
    refine ⟨_, e1, refresh_processingImage resp nowMs s, _, e2, ?_⟩
    rw [refresh_processingImage, refresh_processingImage]

/-- C15 amended, at the loaded sample while a placeholder is shown: the refresh clears the
placeholder although the re-read fails. -/
theorem clickRefresh_clears_pending_witness :
    sampleLoadedPending.processingImage ≠ none
    ∧ ∃ s1, clickRefresh (Fetch.networkError "offline") 0 sampleLoadedPending = some s1
        ∧ s1.processingImage = none := by
  obtain ⟨_, h2⟩ := clickRefresh_clears_pending (Fetch.networkError "offline")
    (Fetch.networkError "offline") 0 0 sampleLoadedPending
  obtain ⟨s1, e1, p1, _⟩ := h2 (by decide)
  exact ⟨by decide, s1, e1, p1⟩

/-- C16: when the store accepted the write and the note to the recent-uploads service
fails (network error or non-2xx), the upload is still reported as a success, the
placeholder holds the uploaded bytes, the re-read stays registered and `recentImages` is
unchanged. -/
theorem uploadToGitHub_save_failure (imageData b : String) (read : Fetch ContentsBody)
    (json : Except String ErrorBody) (save : Fetch RecentBody) (now : Clock) (s : State)
    (ht : effectiveToken s ≠ "") (hr : effectiveRepo s ≠ "")
    (hb : commaPart1 imageData = some b) (hs : save.isOk = false) :
    (uploadToGitHub imageData read (Fetch.response true json) save now s).toast
        = some ⟨"Image uploaded successfully!", "success"⟩
    ∧ (uploadToGitHub imageData read (Fetch.response true json) save now s).processingImage
        = some ⟨imageData, now 1⟩
    ∧ Timer.reload 10000 (effectiveToken s) (effectiveRepo s)
        ∈ (uploadToGitHub imageData read (Fetch.response true json) save now s).timers
    ∧ (uploadToGitHub imageData read (Fetch.response true json) save now s).recentImages
        = s.recentImages := by
  refine ⟨?_, uploadToGitHub_ok_processingImage imageData read json save now s ht hr, ?_, ?_⟩
  · unfold uploadToGitHub
    simp only [ht, hr, or_self, if_false, hb]
    cases save with
    | networkError msg => rfl
    | response ok body =>
      have hok : ok = false := hs
      subst hok
      rfl
  · rw [uploadToGitHub_ok_timers imageData read json save now s ht hr]
    simp
  · unfold uploadToGitHub
    simp only [ht, hr, or_self, if_false, hb]
    cases save with
    | networkError msg => rfl
    | response ok body =>
      have hok : ok = false := hs
      subst hok
      rfl

/-- C16, at the sample: the persistence service is unreachable and the upload still ends as
a success with the placeholder set. -/
theorem uploadToGitHub_save_failure_witness :
    (uploadToGitHub "data:image/jpeg;base64,AAAA" sampleRead sampleWritten
        (Fetch.networkError "offline") sampleClock sampleState).toast
      = some ⟨"Image uploaded successfully!", "success"⟩
    ∧ (uploadToGitHub "data:image/jpeg;base64,AAAA" sampleRead sampleWritten
        (Fetch.networkError "offline") sampleClock sampleState).recentImages = [] := by
  obtain ⟨h1, _, _, h4⟩ := uploadToGitHub_save_failure "data:image/jpeg;base64,AAAA" "AAAA"
    sampleRead (Except.error "") (Fetch.networkError "offline") sampleClock sampleState
    (by decide) (by decide) (by decide) rfl
  exact ⟨h1, h4⟩

/-- C17, as stated, fails: for the path `owner/repo` the URL shown and copied is
`https://owner.github.io/repo/image1.jpg`, with the owner in the host name; it is not
`{host}/owner/repo/image1.jpg` for any host. -/
theorem public_url_owner_in_host :
    copiedUrl sampleLoaded = some "https://owner.github.io/repo/image1.jpg"
    ∧ ¬ ∃ host : String, copiedUrl sampleLoaded = some (specReadUrl host "owner/repo") := by
  refine ⟨by decide, ?_⟩
  rintro ⟨host, h⟩
  have h1 : copiedUrl sampleLoaded = some "https://owner.github.io/repo/image1.jpg" := by decide
  have h2 : specReadUrl host "owner/repo" = host ++ "/owner/repo/image1.jpg" := by
    have e : (splitChars '/' "owner/repo".toList).map String.mk = ["owner", "repo"] := by decide
    unfold specReadUrl
    simp only [e]
    simp [String.append_assoc]
  rw [h1, h2] at h
  have h3 : "https://owner.github.io/repo/image1.jpg".toList
      = host.toList ++ "/owner/repo/image1.jpg".toList := by
    have := congrArg String.toList (Option.some.inj h)
    simpa [String.toList] using this
  have h4 : "/owner/repo/image1.jpg".toList <:+ "https://owner.github.io/repo/image1.jpg".toList :=
    ⟨host.toList, h3.symm⟩
  revert h4
  decide

/-- C17, amended: the URL copied and the URL displayed are the same string in every state;
it is built from `currentImage.repo`, or when that is empty from `repoPath`, then
`config.repoPath`; for a path `owner/repoName` it is
`https://owner.github.io/repoName/image1.jpg`. -/
theorem public_url_shape (s : State) :
    copiedUrl s = displayedUrl s
    ∧ (∀ cur : CurrentImage, s.currentImage = some cur →
        copiedUrl s = some (pagesUrl (urlRepo cur s))
        ∧ (cur.repo ≠ "" → urlRepo cur s = cur.repo)
        ∧ (cur.repo = "" → s.repoPath ≠ "" → urlRepo cur s = s.repoPath)
        ∧ (cur.repo = "" → s.repoPath = "" → urlRepo cur s = s.config.repoPath))
    ∧ (∀ owner repoName : String, '/' ∉ owner.toList → '/' ∉ repoName.toList →
        pagesUrl (owner ++ "/" ++ repoName)
          = "https://" ++ owner ++ ".github.io/" ++ repoName ++ "/image1.jpg") := by
  refine ⟨rfl, ?_, pagesUrl_two_segments⟩
  intro cur hcur
  refine ⟨?_, ?_, ?_, ?_⟩
  · unfold copiedUrl; rw [hcur]
  · intro h; unfold urlRepo; simp [h]
  · intro h1 h2; unfold urlRepo; simp [h1, h2]
  · intro h1 h2; unfold urlRepo; simp [h1, h2]

/-- C17 amended, at the sample: the current image was read from `owner/repo`. -/
theorem public_url_shape_witness :
    displayedUrl sampleLoaded = some "https://owner.github.io/repo/image1.jpg" := by
  rw [← (public_url_shape sampleLoaded).1]
  decide

/-- C18, as stated, fails: a reuse that the store accepted registers two re-reads, the one
of `uploadToGitHub` at 10000 ms and its own at 3000 ms. -/
theorem reuseImage_two_rereads :
    reloads (reuseImage "data:image/jpeg;base64,AAAA" none sampleRead sampleWritten
        (Fetch.networkError "") sampleClock sampleState).timers
      = [Timer.reload 10000 "token" "owner/repo", Timer.reload 3000 "token" "owner/repo"] := by
  decide

/-- C18, amended: a confirmed upload that the store accepts registers exactly one re-read, at
10000 ms; a reuse that the store accepts registers two, the one of `uploadToGitHub` at
10000 ms and then its own at 3000 ms; nothing else re-reads, retries or backs off. -/
theorem accepted_upload_rereads (imageData : String) (fetched : Option String)
    (read : Fetch ContentsBody) (json : Except String ErrorBody) (save : Fetch RecentBody)
    (now : Clock) (s : State)
    (ht : effectiveToken s ≠ "") (hr : effectiveRepo s ≠ "")
    (hd : startsWith imageData "http" = true → fetched ≠ none) :
    (∀ p : Preview, s.previewImage = some p →
      reloads (confirmUpload read (Fetch.response true json) save now s).timers
        = reloads s.timers ++ [Timer.reload 10000 (effectiveToken s) (effectiveRepo s)])
    ∧ reloads (reuseImage imageData fetched read (Fetch.response true json) save now s).timers
      = reloads s.timers ++ [Timer.reload 10000 (effectiveToken s) (effectiveRepo s),
          Timer.reload 3000 (effectiveToken s) (effectiveRepo s)] := by
  constructor
  · intro p hp
    unfold confirmUpload
    split
    · rename_i hnone
      rw [hp] at hnone
      cases hnone
    · rename_i q hq
      exact uploadToGitHub_ok_reloads q.result.dataUrl read json save now
        { s with uploading := true, progress := 0 } ht hr
  · by_cases hhttp : startsWith imageData "http" = true
    · obtain ⟨dataUrl, hfd⟩ : ∃ dataUrl, fetched = some dataUrl :=
        Option.ne_none_iff_exists'.mp (hd hhttp)
      have h : reloads (uploadToGitHub dataUrl read (Fetch.response true json) save now
            { s with uploading := true,
                     requests := s.requests ++ [Request.getUrl imageData] }).timers
          = reloads s.timers ++ [Timer.reload 10000 (effectiveToken s) (effectiveRepo s)] :=
        uploadToGitHub_ok_reloads dataUrl read json save now
          { s with uploading := true, requests := s.requests ++ [Request.getUrl imageData] }
          ht hr
      unfold reuseImage
      simp only [hhttp, hfd, if_true, reloads_append, h]
      simp [reloads]
    · have h : reloads (uploadToGitHub imageData read (Fetch.response true json) save now
            { s with uploading := true }).timers
          = reloads s.timers ++ [Timer.reload 10000 (effectiveToken s) (effectiveRepo s)] :=
        uploadToGitHub_ok_reloads imageData read json save now { s with uploading := true }
          ht hr
      unfold reuseImage
      simp only [hhttp, Bool.false_eq_true, if_false, reloads_append, h]
      simp [reloads]

/-- C18 amended, at the sample preview: one re-read after the confirmed upload, two after
the reuse of the same bytes. -/
theorem accepted_upload_rereads_witness :
    reloads (confirmUpload sampleRead sampleWritten (Fetch.networkError "") sampleClock
        samplePreview).timers = [Timer.reload 10000 "token" "owner/repo"]
    ∧ reloads (reuseImage "data:image/jpeg;base64,AAAA" none sampleRead sampleWritten
        (Fetch.networkError "") sampleClock samplePreview).timers
      = [Timer.reload 10000 "token" "owner/repo", Timer.reload 3000 "token" "owner/repo"] := by
  obtain ⟨h1, h2⟩ := accepted_upload_rereads "data:image/jpeg;base64,AAAA" none
    sampleRead (Except.error "") (Fetch.networkError "") sampleClock samplePreview
    (by decide) (by decide) (fun hh => absurd hh (by decide))
  exact ⟨h1 _ rfl, h2⟩

/-- C19: for positive sides below `2 ^ 32` and off the boundary `2048 * min = max`, both
output dimensions of `resizeImage` are at least 1 exactly when `max <= 2048` or
`2048 * min >= max`, so 1 x 5000 gets a zero width.  On the boundary the code departs
from the claim: 49 x 100352 has `2048 * 49 = 100352` and still gets the width 0 (and the
height 2047), because `49 * (2048 / 100352)` rounds to a number below 1. -/
theorem resizeImage_positive_sides :
    (∀ (enc : Encoder) (s : State) (file : File) (w h : Nat),
      0 < w → 0 < h → w < 2 ^ 32 → h < 2 ^ 32 → file.image = some ⟨w, h⟩ →
      (∀ sz q, ∃ p, commaPart1 (enc file sz "image/jpeg" q) = some p) →
      (max w h ≤ 2048 ∨ 2048 * min w h ≠ max w h) →
      ∃ r, resizeImage enc s file = some r
        ∧ ((1 ≤ r.newSize.width ∧ 1 ≤ r.newSize.height)
            ↔ (max w h ≤ 2048 ∨ max w h ≤ 2048 * min w h)))
    ∧ (resizeImage sampleEncoder State.init ⟨"image/png", 3000000, some ⟨49, 100352⟩⟩).map
        (fun r => r.newSize) = some ⟨0, 2047⟩
    ∧ 2048 * min 49 100352 ≥ max 49 100352
    ∧ (resizeImage sampleEncoder State.init ⟨"image/png", 3000000, some ⟨1, 5000⟩⟩).map
        (fun r => r.newSize) = some ⟨0, 2048⟩ := by
  refine ⟨?_, by decide, by decide, by decide⟩
  intro enc s file w h hw hh hwb hhb hdec henc hoff
  obtain ⟨p, hp⟩ := henc (targetSize ⟨w, h⟩) (getCompressionQuality s)
  refine ⟨_, resizeImage_some enc s file ⟨w, h⟩ p hdec hp, ?_⟩
  show (1 ≤ (targetSize ⟨w, h⟩).width ∧ 1 ≤ (targetSize ⟨w, h⟩).height) ↔ _
  constructor
  · intro hpos
    by_contra hn
    have h1 : 2048 < max w h := by omega
    have h2 : 2048 * min w h < max w h := by omega
    obtain ⟨z1, z2⟩ := targetSize_zero w h hw hh hwb hhb h1 h2
    rcases Nat.le_total w h with hle | hle
    · have := z1 hle; omega
    · have := z2 hle; omega
  · intro hc
    apply targetSize_pos w h hw hh hwb hhb
    omega

/-- C19, off the boundary at 4000 x 3000 and at 1 x 5000: the first keeps both sides
positive, the second does not. -/
theorem resizeImage_positive_sides_witness :
    (∃ r, resizeImage sampleEncoder State.init samplePng = some r
      ∧ 1 ≤ r.newSize.width ∧ 1 ≤ r.newSize.height)
    ∧ (∃ r, resizeImage sampleEncoder State.init ⟨"image/png", 3000000, some ⟨1, 5000⟩⟩ = some r
      ∧ ¬ (1 ≤ r.newSize.width ∧ 1 ≤ r.newSize.height)) := by
  constructor
  · obtain ⟨r, h1, h2⟩ := resizeImage_positive_sides.1 sampleEncoder State.init samplePng
      4000 3000 (by decide) (by decide) (by decide) (by decide) rfl
      (fun sz q => ⟨"AAAA", sampleEncoder_payload samplePng sz "image/jpeg" q⟩)
      (Or.inr (by decide))
    exact ⟨r, h1, h2.mpr (Or.inr (by decide))⟩
  · obtain ⟨r, h1, h2⟩ := resizeImage_positive_sides.1 sampleEncoder State.init
      ⟨"image/png", 3000000, some ⟨1, 5000⟩⟩
      1 5000 (by decide) (by decide) (by decide) (by decide) rfl
      (fun sz q => ⟨"AAAA", sampleEncoder_payload _ sz "image/jpeg" q⟩)
      (Or.inr (by decide))
    refine ⟨r, h1, ?_⟩
    intro hpos
    have := h2.mp hpos
    revert this
    decide

end ImageUploadSite
